import Mathlib

/-
Verification development for the CarRacing track generator and tile
occupancy / lookahead graph (gym/envs/box2d/car_racing.py).

The Python dict-of-dicts structures `_current_nodes` / `_next_nodes`
(`dict[id][lane] = direction`) are embedded as association lists with
`Nat` keys that keep insertion order, exactly as Python dicts do.
Floating point angle arithmetic (the direction computation from
`car.hull.angle` in `add_current_tile`, and the geometric cursor update in
`_get_track`) is abstracted: the computed direction is an `Int` input, and
the cursor geometry is abstracted as the stream of polar angles it
produces, which is all the control flow of the loop observes.
-/

set_option autoImplicit false
set_option maxHeartbeats 1000000
set_option maxRecDepth 100000

namespace CarRacing

/-! ## Association-list model of Python dicts -/

/-- Lookup (`d[k]`, `k in d`): value at the first matching key. -/
def dGet {α : Type} : List (Nat × α) → Nat → Option α
  | [], _ => none
  | p :: rest, k => if p.1 = k then some p.2 else dGet rest k

/-- Assignment `d[k] = v`: overwrite in place (Python dicts keep the key's
insertion position on overwrite), or append a fresh entry at the end. -/
def dSet {α : Type} : List (Nat × α) → Nat → α → List (Nat × α)
  | [], k, v => [(k, v)]
  | p :: rest, k, v => if p.1 = k then (k, v) :: rest else p :: dSet rest k v

/-- Deletion `del d[k]`.  Keys are unique in every dict the program builds,
so removing every match coincides with removing the single entry. -/
def dDel {α : Type} : List (Nat × α) → Nat → List (Nat × α)
  | [], _ => []
  | p :: rest, k => if p.1 = k then dDel rest k else p :: dDel rest k

/-- Inner dict of `_current_nodes` / `_next_nodes`: `lane -> direction`. -/
abbrev LaneMap := List (Nat × Int)

/-- Outer dict: `tile id -> (lane -> direction)`. -/
abbrev NodeMap := List (Nat × LaneMap)

/-- Two-level lookup `d[id][lane]` guarded by membership tests. -/
def stepGet (s : NodeMap) (id lane : Nat) : Option Int :=
  (dGet s id).bind (fun lm => dGet lm lane)

/-- The idiom `if id not in d: d[id] = \x7b\x7d` followed by
`d[id][lane] = direction` (also models `d[id][lane] = direction` when the
key is already present). -/
def stepSet (s : NodeMap) (id lane : Nat) (d : Int) : NodeMap :=
  dSet s id (dSet ((dGet s id).getD []) lane d)

/-! ## FrictionDetector begin-contact events and the `road_visited` flag

Each road tile id owns one Box2D body *per enabled lane* (see the
`for lane in range(self.num_lanes)` loop in `_create_track`), and
`road_visited` is an attribute of the body.  Obstacle bodies are created
with `road_visited = True` and never fire, so only road-tile bodies are
modelled.  A begin-contact event therefore carries the body's `(id, lane)`. -/

structure ContactEvent where
  id : Nat
  lane : Nat
deriving DecidableEq

instance : Inhabited ContactEvent := ⟨⟨0, 0⟩⟩

/-- The begin branch of `FrictionDetector._contact`: the reward /
`tile_visited_count` update fires exactly when the contacted body's
`road_visited` flag is still false, and then sets it.  Returns, per event
in order, whether the update fired; `vis` is the set of bodies already
marked visited. -/
def runContactsAux : List ContactEvent → List ContactEvent → List Bool
  | _, [] => []
  | vis, e :: evs =>
    if e ∈ vis then false :: runContactsAux vis evs
    else true :: runContactsAux (e :: vis) evs

/-- Fired flags for an episode's begin-contact event stream, starting from
the fresh state produced by `reset` (all bodies unvisited). -/
def runContacts (evs : List ContactEvent) : List Bool :=
  runContactsAux [] evs

/-- Number of `tile_visited_count` increments over the episode. -/
def tileVisitedCount (evs : List ContactEvent) : Nat :=
  (runContacts evs).count true

/-- The property claimed of the visited flag: for every event, it fires
exactly when no earlier begin-contact event touched the same *tile id*
(any lane). -/
def firesOncePerTile (evs : List ContactEvent) : Prop :=
  ∀ j, j < evs.length →
    ((runContacts evs).getD j false = true ↔
      ∀ i, i < j → (evs.getD i default).id ≠ (evs.getD j default).id)

/-! ## Track model for the occupancy / lookahead graph

`TileInfo` carries the fields of the `self.info` structured array that
`add_current_tile` / `_get_next_node` / `_set_lanes` read:
`track`, `end`, `start`, `intersection_id` and `lanes`.
`Model.trackLens` are the lengths of `self.tracks`. -/

structure TileInfo where
  track : Nat
  isEnd : Bool
  isStart : Bool
  interId : Int
  lanes : Bool × Bool
deriving DecidableEq

/-- `_create_info` zero-initialises the array and then sets
`intersection_id = -1` and `lanes = [True, True]` everywhere. -/
instance : Inhabited TileInfo := ⟨⟨0, false, false, -1, (true, true)⟩⟩

structure Model where
  info : List TileInfo
  trackLens : List Nat
deriving DecidableEq

def infoAtM (m : Model) (i : Nat) : TileInfo := m.info.getD i default

/-- `np.where(self.info['intersection_id'] == intersection)[0]`: the tile
indices of an intersection group, in increasing order. -/
def groupIds (m : Model) (g : Int) : List Nat :=
  (List.range m.info.length).filter (fun i => decide ((infoAtM m i).interId = g))

/-- Body of the `for tmp_id in np.where(...)` loop of `_get_next_node`.
The accumulator carries the dict under construction *and* the current
value of the Python local `direction`, which the loop mutates (the
`direction = -1` assignments persist into later iterations). -/
def interStep (m : Model) (lane : Nat) (nextId : Int)
    (acc : NodeMap × Int) (tmp : Nat) : NodeMap × Int :=
  let nodes := dSet acc.1 tmp []
  let ti := infoAtM m tmp
  if ti.track > 0 then
    let d := if ti.isEnd = true then -1 else acc.2
    let d := if ti.isStart = true then -1 else d
    (stepSet (stepSet nodes tmp 1 d) tmp 0 d, d)
  else
    if (tmp : Int) = nextId then
      (stepSet nodes tmp lane acc.2, acc.2)
    else
      (stepSet (stepSet nodes tmp 1 0) tmp 0 0, acc.2)

/-- `CarRacing._get_next_node(id, lane, direction)`.  Note that the code
compares the group member `tmp_id` (an absolute tile index) against
`next_id`, which is an index *relative* to the caller's own sub-track. -/
def getNextNode (m : Model) (id lane : Nat) (direction : Int) : NodeMap :=
  let ti := infoAtM m id
  if (ti.isEnd = true ∧ direction = 1) ∨ (ti.isStart = true ∧ direction = -1) then
    []
  else
    let idRel : Int :=
      (id : Int) - (if ti.track > 0 then ((m.trackLens.getD (ti.track - 1) 0 : Nat) : Int) else 0)
    let len : Int := ((m.trackLens.getD ti.track 0 : Nat) : Int)
    let nextId : Int := (idRel + direction) % len
    let naive : Int := (id : Int) - idRel + nextId
    if (infoAtM m naive.toNat).interId ≠ -1 then
      ((groupIds m (infoAtM m naive.toNat).interId).foldl
        (interStep m lane nextId) ([], direction)).1
    else
      stepSet [] naive.toNat lane direction

/-- Merge one predicted dict into `next_nodes`
(`if k not in next_nodes: next_nodes[k] = \x7b\x7d` then the inner loop). -/
def mergeOne (acc : NodeMap) (kv : Nat × LaneMap) : NodeMap :=
  let acc := if (dGet acc kv.1).isSome then acc else dSet acc kv.1 []
  kv.2.foldl (fun a ld => stepSet a kv.1 ld.1 ld.2) acc

/-- One iteration of the prediction `while` loop body: expand every
`(id, lane, direction)` of `elems`, expanding both directions when the
stored direction is 0, and merge the results in iteration order. -/
def expandStep (m : Model) (elems : NodeMap) : NodeMap :=
  elems.foldl (fun acc kv =>
    kv.2.foldl (fun acc ld =>
      let preds :=
        if ld.2 = 0 then
          [getNextNode m kv.1 ld.1 1, getNextNode m kv.1 ld.1 (-1)]
        else
          [getNextNode m kv.1 ld.1 ld.2]
      preds.foldl (fun acc pred => pred.foldl mergeOne acc) acc) acc) []

def SHOW_NEXT_N_TILES : Nat := 10

/-- Lines 359-373 of `add_current_tile`: if the first frontier step holds
`(id, lane)` with the same computed direction, consume just that entry
(the whole tile entry if it was the tile's only lane); otherwise, or when
the direction differs, discard the entire frontier. -/
def reconcileNexts (nexts : List NodeMap) (id lane : Nat) (d : Int) : List NodeMap :=
  match nexts with
  | [] => []
  | st :: rest =>
    if stepGet st id lane = some d then
      let lm := (dGet st id).getD []
      if lm.length > 1 then dSet st id (dDel lm lane) :: rest
      else dDel st id :: rest
    else []

/-- The `while len(self._next_nodes) < SHOW_NEXT_N_TILES` refill loop.
Each iteration appends exactly one step, so fuel `SHOW_NEXT_N_TILES`
realises the source loop exactly on every input of length at most
`SHOW_NEXT_N_TILES`. -/
def refillLoop (m : Model) (cur : NodeMap) : List NodeMap → Nat → List NodeMap
  | nexts, 0 => nexts
  | nexts, fuel + 1 =>
    if nexts.length < SHOW_NEXT_N_TILES then
      refillLoop m cur (nexts ++ [expandStep m (nexts.getLast?.getD cur)]) fuel
    else nexts

structure GraphState where
  current : NodeMap
  nexts : List NodeMap
deriving DecidableEq

instance : Inhabited GraphState := ⟨⟨[], []⟩⟩

/-- `CarRacing.add_current_tile(id, lane)`.  `direction` is the value the
source computes from the tile's stored bearing and the car heading just
before this code runs (it is always -1 or +1 there). -/
def addCurrentTile (m : Model) (s : GraphState) (id lane : Nat) (direction : Int) :
    GraphState :=
  let cur := stepSet s.current id lane direction
  let nexts := reconcileNexts s.nexts id lane direction
  let nexts := nexts.filter (fun st => decide (0 < st.length))
  ⟨cur, refillLoop m cur nexts SHOW_NEXT_N_TILES⟩

/-- `CarRacing.remove_current_tile(id, lane)`. -/
def removeCurrentTile (s : GraphState) (id lane : Nat) : GraphState :=
  if (dGet s.current id).isSome then
    let lm := (dGet s.current id).getD []
    let cur := if lm.length > 1 then dSet s.current id (dDel lm lane)
               else dDel s.current id
    if cur.length = 0 then ⟨cur, []⟩ else ⟨cur, s.nexts⟩
  else s

/-- Concrete two-track model with a dead-end: tiles 0-4 form the main
track, tiles 5-9 the secondary track, and tile 9 is an `end` tile. -/
def mC3 : Model :=
  ⟨(List.range 10).map (fun i =>
      { track := if i < 5 then 0 else 1
        isEnd := decide (i = 9)
        isStart := false
        interId := -1
        lanes := (true, true) }),
   [5, 5]⟩

/-- Concrete two-track model with an intersection group containing the
main-track tile 3 and the secondary-track tile 8 (neither start nor end). -/
def mC4 : Model :=
  ⟨(List.range 10).map (fun i =>
      { track := if i < 5 then 0 else 1
        isEnd := false
        isStart := false
        interId := if i = 3 ∨ i = 8 then 7 else -1
        lanes := (true, true) }),
   [5, 5]⟩

/-- The lane dict that one iteration of the intersection loop writes for
its own tile `tmp`, as a function of the `direction` value the Python
local holds when that iteration runs (characterisation used in proofs). -/
def interWritten (m : Model) (lane : Nat) (nextId : Int) (dir : Int) (tmp : Nat) :
    LaneMap :=
  if (infoAtM m tmp).track > 0 then
    let d := if (infoAtM m tmp).isEnd = true then -1 else dir
    let d := if (infoAtM m tmp).isStart = true then -1 else d
    [(1, d), (0, d)]
  else if (tmp : Int) = nextId then [(lane, dir)]
  else [(1, 0), (0, 0)]

/-- Concrete two-track model for the witness of the amended C4: the main
track is 0-4, the secondary track 5-9; tiles 2 (main) and 7 (secondary,
an `end` tile) form intersection group 3. -/
def mC4W : Model :=
  ⟨(List.range 10).map (fun i =>
      { track := if i < 5 then 0 else 1
        isEnd := decide (i = 7)
        isStart := false
        interId := if i = 2 ∨ i = 7 then 3 else -1
        lanes := (true, true) }),
   [5, 5]⟩

/-! ## The lane assigner `_set_lanes`

Randomness is made explicit: `raw` is the sequence drawn from the seeded
generator `self.np_random.randint(0, len(track), num_lanes_changes)`, and
`g` is the stream of draws `np.random.randint(0, 2)` taken from the
process-global (unseeded) generator when a removal run starts.

The final boundary override indexes a boolean-mask selection
`self.info[self.info['track'] == num_track]`.  Numpy copies such a
selection, but the `lanes` field has object dtype, so the copied records
alias the same Python list objects and the element assignment
`[...]['lanes'][lane] = True` mutates the original array's list; the
override is therefore modelled as writing through to `info`. -/

def infoAt' (info : List TileInfo) (i : Nat) : TileInfo := info.getD i default

/-- `np.sort` of the raw seeded draws (any stable ascending sort). -/
def changesSorted (raw : List Nat) : List Nat := raw.insertionSort (· ≤ ·)

/-- The change-point validity check of `_set_lanes` (the `changes_bad`
loop).  The bare `next` statement in the source is a no-op, so a change is
bad iff either condition fires.  Negative Python indices
(`track_info[idx_relative - i]`) are realised with `Int.emod`, which
agrees with numpy for `-len ≤ idx_relative - i`; below that (a change
point on a sub-track shorter than about 51 tiles) numpy raises
`IndexError` while this model wraps, so every concrete run examined below
uses a track long enough that `idx_relative - i` stays at or above `-len`
(in fact non-negative) and the source computes the same state. -/
def isChangeBad (info : List TileInfo) (changes : List Nat) (idx : Nat) : Bool :=
  let startFrom :=
    ((List.range info.length).filter
      (fun i => decide ((infoAt' info i).track < (infoAt' info idx).track))).length
  let untilLen :=
    ((List.range info.length).filter
      (fun i => decide ((infoAt' info i).track = (infoAt' info idx).track))).length
  let changesInTrack : List Int :=
    (changes.map (fun c => (c : Int) - (startFrom : Int))).filter
      (fun x => decide (0 < x ∧ x < (untilLen : Int)))
  let idxRel : Int := (idx : Int) - (startFrom : Int)
  let cond1 := changesInTrack.any
    (fun x => decide (0 < x - (idx : Int) ∧ x - (idx : Int) < 10))
  let trackInfo :=
    ((List.range info.length).filter
      (fun i => decide ((infoAt' info i).track = (infoAt' info idx).track))).map
      (infoAt' info)
  let cond2 := (List.range 51).any (fun i =>
    (trackInfo.getD (((idxRel + (i : Int)) % (trackInfo.length : Int)).toNat) default).isEnd ||
    (trackInfo.getD (((idxRel - (i : Int)) % (trackInfo.length : Int)).toNat) default).isStart)
  cond1 || cond2

/-- Sorted draws with the bad change points removed
(`np.setdiff1d(changes, changes_bad)`, applied only when some point was
bad, exactly as in the source). -/
def changesFiltered (info : List TileInfo) (raw : List Nat) : List Nat :=
  let changes := changesSorted raw
  let bad := changes.filter (fun c => isChangeBad info changes c)
  if bad.length > 0 then (changes.filter (fun c => decide (c ∉ bad))).dedup
  else changes

/-- State of the tile walk: `rm_lane` (0/1 as a Bool), the currently
removed lane, the single-lane run counter, and how many global draws have
been consumed. -/
structure WalkState where
  rmLane : Bool
  lane : Fin 2
  counter : Nat
  gIdx : Nat
deriving DecidableEq

/-- `pair[l] = v` for a two-element Python list. -/
def setLaneNat (p : Bool × Bool) (l : Nat) (v : Bool) : Bool × Bool :=
  if l = 0 then (v, p.2) else if l = 1 then (p.1, v) else p

/-- `self.info[i]['lanes'][l] = v`. -/
def updateLanes (info : List TileInfo) (i : Nat) (l : Nat) (v : Bool) :
    List TileInfo :=
  info.set i
    (let ti := infoAt' info i
     { ti with lanes := setLaneNat ti.lanes l v })

/-- One iteration of `for i, point in enumerate(self.track)`. -/
def walkStep (cfg : Nat) (changes : List Nat) (g : Nat → Fin 2)
    (st : WalkState × List TileInfo) (i : Nat) : WalkState × List TileInfo :=
  let w := st.1
  let info := st.2
  let change : Bool := decide (i ∈ changes)
  let rm := Bool.xor w.rmLane change
  let lane := if change = true ∧ rm = true then g w.gIdx else w.lane
  let gIdx := if change = true ∧ rm = true then w.gIdx + 1 else w.gIdx
  let info' := if rm = true then updateLanes info i lane.val false else info
  let counter := if rm = true then w.counter + 1 else 0
  let ti := infoAt' info' i
  let rm' := if ti.isEnd = true ∨ ti.isStart = true ∨ cfg < counter then false else rm
  (⟨rm', lane, counter, gIdx⟩, info')

/-- The whole tile walk (`maxSingleLane` is `self.max_single_lane`). -/
def walkAll (maxSingleLane : Nat) (changes : List Nat) (g : Nat → Fin 2)
    (info : List TileInfo) : List TileInfo :=
  ((List.range info.length).foldl (walkStep maxSingleLane changes g)
    (⟨false, 0, 0, 0⟩, info)).2

/-- `self.info[self.info['track'] == num_track]`: positions of track `t`'s
tiles, in order. -/
def trackPositions (info : List TileInfo) (t : Nat) : List Nat :=
  (List.range info.length).filter (fun i => decide ((infoAt' info i).track = t))

/-- Python negative index `[-i]` on a sequence of length `len`. -/
def negIdx (len : Nat) (i : Nat) : Nat := ((-(i : Int)) % (len : Int)).toNat

def forceLaneTrue (info : List TileInfo) (p : Nat) (l : Nat) : List TileInfo :=
  updateLanes info p l true

/-- The two statements of the innermost override loop body, each
recomputing the boolean-mask selection as in the source. -/
def overridePair (t l i : Nat) (info : List TileInfo) : List TileInfo :=
  let ps := trackPositions info t
  let info1 :=
    match ps.get? i with
    | some p => forceLaneTrue info p l
    | none => info
  let ps2 := trackPositions info1 t
  match ps2.get? (negIdx ps2.length i) with
  | some p => forceLaneTrue info1 p l
  | none => info1

/-- The triple loop `for num_track / for lane / for i in range(10)`
flattened in iteration order. -/
def overrideTriples (numTracks numLanes : Nat) : List (Nat × Nat × Nat) :=
  (List.range numTracks).flatMap (fun t =>
    (List.range numLanes).flatMap (fun l =>
      (List.range 10).map (fun i => (t, l, i))))

/-- The boundary safety override at the end of `_set_lanes`. -/
def applyOverride (numTracks numLanes : Nat) (info : List TileInfo) :
    List TileInfo :=
  (overrideTriples numTracks numLanes).foldl
    (fun info tli => overridePair tli.1 tli.2.1 tli.2.2 info) info

structure LanesConfig where
  numLanes : Nat
  numLanesChanges : Nat
  maxSingleLane : Nat
  numTracks : Nat
deriving DecidableEq

/-- `CarRacing._set_lanes`. -/
def setLanes (cfg : LanesConfig) (raw : List Nat) (g : Nat → Fin 2)
    (info : List TileInfo) : List TileInfo :=
  if 0 < cfg.numLanesChanges ∧ 1 < cfg.numLanes then
    applyOverride cfg.numTracks cfg.numLanes
      (walkAll cfg.maxSingleLane (changesFiltered info raw) g info)
  else info

def bothLanesTrue (info : List TileInfo) (i : Nat) : Bool :=
  decide ((infoAt' info i).lanes = (true, true))

/-- Component `l` of a two-element lanes pair (`lanes[l]`). -/
def compAt (pr : Bool × Bool) (l : Nat) : Bool :=
  if l = 0 then pr.1 else pr.2

/-- `self.info[p]['lanes'][l]`. -/
def laneAt (info : List TileInfo) (p : Nat) (l : Nat) : Bool :=
  compAt (infoAt' info p).lanes l

/-- Relation between two walk states of runs that share the seeded draws
but differ in the global lane draws: the control state evolves in
lockstep, and per tile the two runs agree on whether both lanes are still
enabled (used for the determinism analysis). -/
def WalkSim (st1 st2 : WalkState × List TileInfo) : Prop :=
  st1.1.rmLane = st2.1.rmLane ∧
  st1.1.counter = st2.1.counter ∧
  st1.1.gIdx = st2.1.gIdx ∧
  st1.2.length = st2.2.length ∧
  (∀ j, (infoAt' st1.2 j).isEnd = (infoAt' st2.2 j).isEnd ∧
        (infoAt' st1.2 j).isStart = (infoAt' st2.2 j).isStart) ∧
  (∀ j, (infoAt' st1.2 j).lanes = (true, true) ↔
        (infoAt' st2.2 j).lanes = (true, true))

/-- Positions and lanes written by the boundary override: lane `l` of
position `p` is forced to `True` iff some iteration `(t, l, i)` of the
triple loop addresses `p` as the `i`-th or `(-i)`-th tile of sub-track
`t` (positions are stable under the override since it only writes the
`lanes` field). -/
def overrideTargeted (numTracks numLanes : Nat) (info : List TileInfo)
    (p l : Nat) : Prop :=
  l < numLanes ∧ ∃ t, t < numTracks ∧ ∃ i, i < 10 ∧
    ((trackPositions info t).get? i = some p ∨
     (trackPositions info t).get?
       (negIdx (trackPositions info t).length i) = some p)

/-- Single-track 22-tile info array as `_create_info` initialises it. -/
def info22 : List TileInfo := (List.range 22).map (fun _ => default)

def cfg22 : LanesConfig := ⟨2, 1, 50, 1⟩

/-- Single-track 60-tile info array as `_create_info` initialises it.
With a change point at tile 50, every index the 51-iteration validation
loop reads (`(50+i) % 60` and `50-i` for `i in range(51)`) is a valid,
non-negative numpy index, so the real `_set_lanes` runs this input to
completion. -/
def info60 : List TileInfo := (List.range 60).map (fun _ => default)

def cfg60 : LanesConfig := ⟨2, 1, 50, 1⟩

def gZero : Nat → Fin 2 := fun _ => 0

def gOne : Nat → Fin 2 := fun _ => 1

/-! ## The path synthesizer cursor loop of `_get_track`

Only the control flow is embedded: the geometric cursor update is
abstracted as the stream `alphas` of polar angles `atan2(y, x)` it
produces, which is the only quantity the lap counting and the stopping
conditions read.  `no_freeze` starts at 2500 and the loop breaks on
`laps > 4` (checked first) or on the decremented budget reaching 0. -/

def trackLoop (alphas : Nat → ℚ) : Nat → Nat → Bool → Nat → Nat × Nat
  | i, laps, _, 0 => (laps, i)
  | i, laps, visited, nf + 1 =>
    let alpha := alphas i
    let laps' := if visited = true ∧ 0 < alpha then laps + 1 else laps
    let visited' := if visited = true ∧ 0 < alpha then false else visited
    let visited'' := if alpha < 0 then true else visited'
    if 4 < laps' then (laps', i + 1)
    else if nf = 0 then (laps', i + 1)
    else trackLoop alphas (i + 1) laps' visited'' nf

/-- The cursor loop as entered by `_get_track`: returns the final lap
count and the number of iterations executed. -/
def getTrackLaps (alphas : Nat → ℚ) : Nat × Nat :=
  trackLoop alphas 0 0 false 2500

/-- Angle stream that wraps past 0 every second step. -/
def altAlphas : Nat → ℚ := fun i => if i % 2 = 0 then -1 else 1

/-- Angle stream that wraps past 0 exactly 4 times and then stays
positive. -/
def fourWrapAlphas : Nat → ℚ :=
  fun i => if i < 8 then (if i % 2 = 0 then -1 else 1) else 1

/-! ## Start/end tile interpolation candidates and the reset retry loop

`_create_track` searches for interpolation candidate points for a
start/end tile in rings of growing radius, and raises a `RuntimeError`
when none are found within `PLAYFIELD`; `reset` only retries the `False`
return of `_create_track` (track failed to close / merge emptied a track)
and lets the exception propagate.  `ds` are the distances of the candidate
points `p3_org` from `p1`. -/

def TRACK_WIDTH : ℚ := 40 / 6

def PLAYFIELD : ℚ := 2000 / 6

/-- `np.intersect1d(close, not_too_close)`: candidate indices at distance
at least `TRACK_WIDTH/3` and at most `dist` from `p1`. -/
def p3Select (ds : List ℚ) (dist : ℚ) : List Nat :=
  (List.range ds.length).filter
    (fun i => decide (TRACK_WIDTH / 3 ≤ ds.getD i 0 ∧ ds.getD i 0 ≤ dist))

/-- `while len(p3) == 0 and distance < PLAYFIELD:` — the distance grows by
`TRACK_WIDTH` each round, so 64 units of fuel strictly exceed the at most
49 rounds the loop can make before `distance` reaches `PLAYFIELD`. -/
def p3While (ds : List ℚ) : Nat → ℚ → List Nat
  | 0, _ => []
  | fuel + 1, dist =>
    if dist < PLAYFIELD then
      let p3 := p3Select ds dist
      if p3.length = 0 then p3While ds fuel (dist + TRACK_WIDTH) else p3
    else []

/-- The hard failure `raise RuntimeError('p3 lenght is zero')`. -/
inductive GenError where
  | p3LengthZero
deriving DecidableEq

/-- The candidate search followed by the raise when it stays empty. -/
def findP3 (ds : List ℚ) : Except GenError (List Nat) :=
  let p3 := p3While ds 64 (TRACK_WIDTH * 2)
  if p3.length = 0 then Except.error GenError.p3LengthZero else Except.ok p3

/-- The `while True: success = self._create_track(); if success: break`
loop of `reset`, applied to the outcomes of successive generation
attempts: a falsy return is retried, an exception propagates (there is no
`try/except`), a truthy return ends the loop. -/
def resetLoop : List (Except GenError Bool) → Except GenError Bool
  | [] => Except.ok false
  | Except.error e :: _ => Except.error e
  | Except.ok true :: _ => Except.ok true
  | Except.ok false :: rest => resetLoop rest

/-! ## Lemmas about the dict operations -/

theorem dGet_dSet_self {α : Type} (m : List (Nat × α)) (k : Nat) (v : α) :
    dGet (dSet m k v) k = some v := by
  induction m with
  | nil => simp [dGet, dSet]
  | cons p rest ih =>
    by_cases h : p.1 = k
    · simp [dGet, dSet, h]
    · simp [dGet, dSet, h, ih]

theorem dGet_dSet_ne {α : Type} (m : List (Nat × α)) (k k' : Nat) (v : α)
    (h : k' ≠ k) : dGet (dSet m k v) k' = dGet m k' := by
  induction m with
  | nil => simp [dGet, dSet, Ne.symm h]
  | cons p rest ih =>
    by_cases h1 : p.1 = k
    · simp [dGet, dSet, h1, Ne.symm h]
    · by_cases h2 : p.1 = k'
      · simp [dGet, dSet, h1, h2, h]
      · simp [dGet, dSet, h1, h2, ih]

theorem dGet_dDel_self {α : Type} (m : List (Nat × α)) (k : Nat) :
    dGet (dDel m k) k = none := by
  induction m with
  | nil => simp [dGet, dDel]
  | cons p rest ih =>
    by_cases h : p.1 = k
    · simp [dGet, dDel, h, ih]
    · simp [dGet, dDel, h, ih]

theorem dGet_dDel_ne {α : Type} (m : List (Nat × α)) (k k' : Nat)
    (h : k' ≠ k) : dGet (dDel m k) k' = dGet m k' := by
  induction m with
  | nil => simp [dGet, dDel]
  | cons p rest ih =>
    by_cases h1 : p.1 = k
    · simp [dGet, dDel, h1, ih, Ne.symm h]
    · simp [dGet, dDel, h1, ih]

theorem eq_singleton_of_dGet_of_len_le_one {α : Type} (m : List (Nat × α))
    (k : Nat) (v : α) (h : dGet m k = some v) (hl : ¬ m.length > 1) :
    m = [(k, v)] := by
  match m with
  | [] => simp [dGet] at h
  | [p] =>
    by_cases h1 : p.1 = k
    · simp [dGet, h1] at h
      cases p
      simp_all
    · simp [dGet, h1] at h
  | p :: q :: rest => simp at hl

/-! ## Claim theorems -/

/-- Specification of the fired flags computed by `runContactsAux`: an event
fires iff its body is neither in the initial visited set nor equal to an
earlier event's body. -/
theorem runContactsAux_getD (evs : List ContactEvent) :
    ∀ (vis : List ContactEvent) (j : Nat), j < evs.length →
      ((runContactsAux vis evs).getD j false = true ↔
        (evs.getD j default ∉ vis ∧
          ∀ i, i < j → evs.getD i default ≠ evs.getD j default)) := by
  induction evs with
  | nil => intro vis j h; simp at h
  | cons e evs ih =>
    intro vis j h
    match j with
    | 0 =>
      by_cases he : e ∈ vis
      · have hrw : runContactsAux vis (e :: evs) = false :: runContactsAux vis evs := by
          simp [runContactsAux, he]
        rw [hrw]
        constructor
        · intro hc; simp at hc
        · rintro ⟨h1, _⟩
          exact absurd he (by simpa using h1)
      · have hrw : runContactsAux vis (e :: evs) =
            true :: runContactsAux (e :: vis) evs := by
          simp [runContactsAux, he]
        rw [hrw]
        constructor
        · intro _
          exact ⟨by simpa using he, fun i hi => absurd hi (by omega)⟩
        · intro _; simp
    | j + 1 =>
      have hj : j < evs.length := by simpa using h
      by_cases he : e ∈ vis
      · rw [show runContactsAux vis (e :: evs) = false :: runContactsAux vis evs by
          simp [runContactsAux, he]]
        rw [show (false :: runContactsAux vis evs).getD (j + 1) false =
          (runContactsAux vis evs).getD j false by simp [List.getD]]
        rw [ih vis j hj]
        constructor
        · rintro ⟨h1, h2⟩
          refine ⟨by simpa using h1, ?_⟩
          intro i hi
          match i with
          | 0 =>
            intro hc
            have hc' : e = evs.getD j default := by simpa [List.getD] using hc
            exact h1 (hc' ▸ he)
          | i + 1 =>
            have := h2 i (by omega)
            simpa [List.getD] using this
        · rintro ⟨h1, h2⟩
          refine ⟨by simpa using h1, ?_⟩
          intro i hi
          have := h2 (i + 1) (by omega)
          simpa [List.getD] using this
      · rw [show runContactsAux vis (e :: evs) = true :: runContactsAux (e :: vis) evs by
          simp [runContactsAux, he]]
        rw [show (true :: runContactsAux (e :: vis) evs).getD (j + 1) false =
          (runContactsAux (e :: vis) evs).getD j false by simp [List.getD]]
        rw [ih (e :: vis) j hj]
        constructor
        · rintro ⟨h1, h2⟩
          simp only [List.mem_cons, not_or] at h1
          refine ⟨by simpa using h1.2, ?_⟩
          intro i hi
          match i with
          | 0 =>
            intro hc
            exact h1.1 (by simpa [List.getD] using hc.symm)
          | i + 1 =>
            have := h2 i (by omega)
            simpa [List.getD] using this
        · rintro ⟨h1, h2⟩
          constructor
          · simp only [List.mem_cons, not_or]
            refine ⟨?_, by simpa using h1⟩
            have := h2 0 (by omega)
            simp only [List.getD] at this ⊢
            exact fun hc => this (by simpa using hc.symm)
          · intro i hi
            have := h2 (i + 1) (by omega)
            simpa [List.getD] using this

/-- C1, counterexample.  With two lanes, tile 0 owns two road bodies; the
begin-contact events `(tile 0, lane 0)` then `(tile 0, lane 1)` both fire
the visited update, contradicting the claim that the flag is false on
every begin-contact event after the first one for that tile (either lane). -/
theorem claim1_counterexample : ¬ firesOncePerTile [⟨0, 0⟩, ⟨0, 1⟩] := by
  unfold firesOncePerTile
  decide

/-- C1, amended: the `road_visited` flag lives on each road *body*, i.e.
on each `(tile, lane)` pair, and fires exactly once per body: the reward /
`tile_visited_count` update fires on a begin-contact event iff no earlier
begin-contact event touched the same `(tile, lane)` body — even across
re-entries later in the episode. -/
theorem claim1_visited_once_per_body (evs : List ContactEvent) (j : Nat)
    (h : j < evs.length) :
    ((runContacts evs).getD j false = true ↔
      ∀ i, i < j → evs.getD i default ≠ evs.getD j default) := by
  have := runContactsAux_getD evs [] j h
  simpa [runContacts] using this

/-- C1, witness: on the concrete episode `[(0,0), (0,1), (0,0)]` the
amended theorem applies; its third event repeats body `(0,0)` and the flag
does not fire there. -/
theorem claim1_witness :
    ((runContacts [⟨0, 0⟩, ⟨0, 1⟩, ⟨0, 0⟩]).getD 2 false = true ↔
      ∀ i, i < 2 →
        ([⟨0, 0⟩, ⟨0, 1⟩, ⟨0, 0⟩] : List ContactEvent).getD i default ≠
          ([⟨0, 0⟩, ⟨0, 1⟩, ⟨0, 0⟩] : List ContactEvent).getD 2 default) :=
  claim1_visited_once_per_body [⟨0, 0⟩, ⟨0, 1⟩, ⟨0, 0⟩] 2 (by decide)

/-- C2: on a begin-contact for `(id, lane)` with computed direction `d`,
if the frontier's first step holds `(id, lane)` with the same direction,
only that entry is consumed — the step count is kept, the deeper steps are
untouched, the consumed entry is gone and every other entry of the head
step is unchanged (no rebuild).  Otherwise the entire frontier is
discarded (to be rebuilt from scratch by the refill loop). -/
theorem claim2_reconcile_consumes_or_discards (st : NodeMap)
    (rest : List NodeMap) (id lane : Nat) (d : Int) :
    (stepGet st id lane = some d →
      (reconcileNexts (st :: rest) id lane d).length = rest.length + 1 ∧
      (reconcileNexts (st :: rest) id lane d).tail = rest ∧
      stepGet ((reconcileNexts (st :: rest) id lane d).headD []) id lane = none ∧
      ∀ id' lane', ¬(id' = id ∧ lane' = lane) →
        stepGet ((reconcileNexts (st :: rest) id lane d).headD []) id' lane' =
          stepGet st id' lane') ∧
    (stepGet st id lane ≠ some d →
      reconcileNexts (st :: rest) id lane d = []) := by
  have hr0 : reconcileNexts (st :: rest) id lane d =
      if stepGet st id lane = some d then
        if ((dGet st id).getD []).length > 1 then
          dSet st id (dDel ((dGet st id).getD []) lane) :: rest
        else dDel st id :: rest
      else [] := rfl
  constructor
  · intro hmatch
    obtain ⟨lm0, hlm0, hlane⟩ :
        ∃ lm0, dGet st id = some lm0 ∧ dGet lm0 lane = some d := by
      unfold stepGet at hmatch
      cases hg : dGet st id with
      | none => rw [hg] at hmatch; simp at hmatch
      | some lm0 => rw [hg] at hmatch; exact ⟨lm0, rfl, by simpa using hmatch⟩
    have hgetd : (dGet st id).getD [] = lm0 := by rw [hlm0]; rfl
    by_cases hlen : lm0.length > 1
    · have hr : reconcileNexts (st :: rest) id lane d =
          dSet st id (dDel lm0 lane) :: rest := by
        rw [hr0, if_pos hmatch, hgetd, if_pos hlen]
      rw [hr]
      refine ⟨by simp, by simp, ?_, ?_⟩
      · show stepGet (dSet st id (dDel lm0 lane)) id lane = none
        unfold stepGet
        rw [dGet_dSet_self]
        simpa using dGet_dDel_self lm0 lane
      · intro id' lane' hne
        show stepGet (dSet st id (dDel lm0 lane)) id' lane' = stepGet st id' lane'
        by_cases hid : id' = id
        · subst hid
          have hlane' : lane' ≠ lane := fun hc => hne ⟨rfl, hc⟩
          unfold stepGet
          rw [dGet_dSet_self, hlm0]
          simpa using dGet_dDel_ne lm0 lane lane' hlane'
        · unfold stepGet
          rw [dGet_dSet_ne st id id' (dDel lm0 lane) hid]
    · have hsing : lm0 = [(lane, d)] :=
        eq_singleton_of_dGet_of_len_le_one lm0 lane d hlane hlen
      have hr : reconcileNexts (st :: rest) id lane d = dDel st id :: rest := by
        rw [hr0, if_pos hmatch, hgetd, if_neg hlen]
      rw [hr]
      refine ⟨by simp, by simp, ?_, ?_⟩
      · show stepGet (dDel st id) id lane = none
        unfold stepGet
        rw [dGet_dDel_self]
        rfl
      · intro id' lane' hne
        show stepGet (dDel st id) id' lane' = stepGet st id' lane'
        by_cases hid : id' = id
        · subst hid
          have hlane' : lane' ≠ lane := fun hc => hne ⟨rfl, hc⟩
          unfold stepGet
          rw [dGet_dDel_self, hlm0, hsing]
          simp [dGet, Ne.symm hlane']
        · unfold stepGet
          rw [dGet_dDel_ne st id id' hid]
  · intro hmiss
    rw [hr0, if_neg hmiss]

/-- C2, witness: the amended theorem applied to a concrete frontier whose
head step holds `(5, 0)` with direction 1 among other entries: the entry
is consumed, the second step survives, and the other entries survive. -/
theorem claim2_witness :
    (reconcileNexts [[(5, [(0, 1), (1, -1)])], [(6, [(0, 1)])]] 5 0 1).length = 2 ∧
    stepGet ((reconcileNexts [[(5, [(0, 1), (1, -1)])], [(6, [(0, 1)])]] 5 0 1).headD [])
      5 0 = none ∧
    stepGet ((reconcileNexts [[(5, [(0, 1), (1, -1)])], [(6, [(0, 1)])]] 5 0 1).headD [])
      5 1 = some (-1) := by
  have h := (claim2_reconcile_consumes_or_discards
    [(5, [(0, 1), (1, -1)])] [[(6, [(0, 1)])]] 5 0 1).1 (by decide)
  refine ⟨h.1, h.2.2.1, ?_⟩
  rw [h.2.2.2 5 1 (by simp)]
  decide

/-- Length of the refill loop's result, for every fuel and start list. -/
theorem refillLoop_length (m : Model) (cur : NodeMap) :
    ∀ (fuel : Nat) (l : List NodeMap),
      (refillLoop m cur l fuel).length =
        if l.length < SHOW_NEXT_N_TILES then
          min SHOW_NEXT_N_TILES (l.length + fuel)
        else l.length := by
  intro fuel
  induction fuel with
  | zero =>
    intro l
    unfold refillLoop
    split <;> omega
  | succ fuel ih =>
    intro l
    unfold refillLoop
    by_cases h : l.length < SHOW_NEXT_N_TILES
    · rw [if_pos h, ih, if_pos h]
      by_cases h2 : l.length + 1 < SHOW_NEXT_N_TILES
      · rw [if_pos (by simpa using h2)]
        simp
        omega
      · rw [if_neg (by simpa using h2)]
        simp
        omega
    · rw [if_neg h, if_neg h]

/-- The reconcile step never lengthens the frontier. -/
theorem reconcileNexts_length_le (nexts : List NodeMap) (id lane : Nat) (d : Int) :
    (reconcileNexts nexts id lane d).length ≤ nexts.length := by
  match nexts with
  | [] => simp [reconcileNexts]
  | st :: rest =>
    rw [show reconcileNexts (st :: rest) id lane d =
      if stepGet st id lane = some d then
        if ((dGet st id).getD []).length > 1 then
          dSet st id (dDel ((dGet st id).getD []) lane) :: rest
        else dDel st id :: rest
      else [] from rfl]
    split
    · split <;> simp
    · simp

/-- C3, counterexample.  Entering the dead-end tile 9 of `mC3` (an `end`
tile, direction +1, hence zero steps from the spur's end), the updated
frontier still holds exactly `SHOW_NEXT_N_TILES = 10` steps — the refill
loop pads with empty steps — where the claim requires it to be shorter
than 10 near a dead-end spur. -/
theorem claim3_counterexample :
    (infoAtM mC3 9).isEnd = true ∧
    (addCurrentTile mC3 ⟨[], []⟩ 9 0 1).nexts = List.replicate 10 [] ∧
    (addCurrentTile mC3 ⟨[], []⟩ 9 0 1).nexts.length = 10 := by
  refine ⟨by decide, by decide, by decide⟩

/-- C3, amended: after every begin-contact update the prediction frontier
holds exactly `SHOW_NEXT_N_TILES = 10` steps (occupancy is never empty
there, since the entered tile was just inserted); near a dead-end spur the
trailing steps are empty dicts rather than missing.  The hypothesis holds
for every reachable state: the frontier is empty after `reset`, has
exactly 10 steps after each begin-contact, and is only cleared or left
unchanged by end-contacts. -/
theorem claim3_frontier_always_ten (m : Model) (s : GraphState)
    (id lane : Nat) (d : Int) (h : s.nexts.length ≤ SHOW_NEXT_N_TILES) :
    (addCurrentTile m s id lane d).nexts.length = SHOW_NEXT_N_TILES := by
  have h1 := reconcileNexts_length_le s.nexts id lane d
  have h2 := List.length_filter_le (fun st => decide (0 < st.length))
    (reconcileNexts s.nexts id lane d)
  show (refillLoop m _ _ SHOW_NEXT_N_TILES).length = SHOW_NEXT_N_TILES
  rw [refillLoop_length]
  split
  · omega
  · omega

/-- C3, witness: the amended theorem applied to the empty graph state and
a begin-contact on tile 0 of `mC3`. -/
theorem claim3_witness :
    (addCurrentTile mC3 ⟨[], []⟩ 0 0 1).nexts.length = SHOW_NEXT_N_TILES :=
  claim3_frontier_always_ten mC3 ⟨[], []⟩ 0 0 1 (by decide)

theorem dGet_stepSet_self (s : NodeMap) (id lane : Nat) (d : Int) :
    dGet (stepSet s id lane d) id = some (dSet ((dGet s id).getD []) lane d) :=
  dGet_dSet_self s id _

theorem dGet_stepSet_ne (s : NodeMap) (id id' lane : Nat) (d : Int)
    (h : id' ≠ id) : dGet (stepSet s id lane d) id' = dGet s id' :=
  dGet_dSet_ne s id id' _ h

/-- The intersection-loop body does not change the threaded `direction`
when its tile is on the main track. -/
theorem interStep_snd_of_track0 (m : Model) (lane : Nat) (nextId : Int)
    (acc : NodeMap × Int) (tmp : Nat) (h : ¬ (infoAtM m tmp).track > 0) :
    (interStep m lane nextId acc tmp).2 = acc.2 := by
  simp only [interStep, if_neg h]
  split <;> rfl

/-- Folding the intersection-loop body over main-track tiles only leaves
the threaded `direction` unchanged. -/
theorem foldl_interStep_snd (m : Model) (lane : Nat) (nextId : Int) :
    ∀ (G : List Nat) (acc : NodeMap × Int),
      (∀ x ∈ G, ¬ (infoAtM m x).track > 0) →
      (G.foldl (interStep m lane nextId) acc).2 = acc.2 := by
  intro G
  induction G with
  | nil => intro acc _; rfl
  | cons x G ih =>
    intro acc hG
    rw [List.foldl_cons, ih _ (fun y hy => hG y (List.mem_cons_of_mem x hy)),
      interStep_snd_of_track0 m lane nextId acc x (hG x (List.mem_cons_self x G))]

/-- What one intersection-loop iteration writes for its own tile. -/
theorem dGet_interStep_self (m : Model) (lane : Nat) (nextId : Int)
    (acc : NodeMap × Int) (tmp : Nat) :
    dGet (interStep m lane nextId acc tmp).1 tmp =
      some (interWritten m lane nextId acc.2 tmp) := by
  by_cases h : (infoAtM m tmp).track > 0
  · simp only [interStep, interWritten, if_pos h]
    rw [dGet_stepSet_self, dGet_stepSet_self, dGet_dSet_self]
    simp [dSet]
  · simp only [interStep, interWritten, if_neg h]
    by_cases h2 : (tmp : Int) = nextId
    · simp only [if_pos h2]
      rw [dGet_stepSet_self, dGet_dSet_self]
      simp [dSet]
    · simp only [if_neg h2]
      rw [dGet_stepSet_self, dGet_stepSet_self, dGet_dSet_self]
      simp [dSet]

/-- One intersection-loop iteration only writes at its own tile's key. -/
theorem dGet_interStep_ne (m : Model) (lane : Nat) (nextId : Int)
    (acc : NodeMap × Int) (t' tmp : Nat) (h : tmp ≠ t') :
    dGet (interStep m lane nextId acc t').1 tmp = dGet acc.1 tmp := by
  by_cases h1 : (infoAtM m t').track > 0
  · simp only [interStep, if_pos h1]
    rw [dGet_stepSet_ne _ _ _ _ _ h, dGet_stepSet_ne _ _ _ _ _ h,
      dGet_dSet_ne _ _ _ _ h]
  · simp only [interStep, if_neg h1]
    by_cases h2 : (t' : Int) = nextId
    · simp only [if_pos h2]
      rw [dGet_stepSet_ne _ _ _ _ _ h, dGet_dSet_ne _ _ _ _ h]
    · simp only [if_neg h2]
      rw [dGet_stepSet_ne _ _ _ _ _ h, dGet_stepSet_ne _ _ _ _ _ h,
        dGet_dSet_ne _ _ _ _ h]

/-- Entries of tiles not iterated over are untouched by the fold. -/
theorem dGet_foldl_interStep_not_mem (m : Model) (lane : Nat) (nextId : Int) :
    ∀ (G : List Nat) (acc : NodeMap × Int) (tmp : Nat), tmp ∉ G →
      dGet (G.foldl (interStep m lane nextId) acc).1 tmp = dGet acc.1 tmp := by
  intro G
  induction G with
  | nil => intro acc tmp _; rfl
  | cons x G ih =>
    intro acc tmp htmp
    rw [List.foldl_cons, ih _ tmp (fun hy => htmp (List.mem_cons_of_mem x hy)),
      dGet_interStep_ne m lane nextId acc x tmp
        (fun hc => htmp (hc ▸ List.mem_cons_self x G))]

/-- C4, counterexample.  In `mC4` the vehicle sits on tile 7 of the
*secondary* track (lane 0, direction +1); the naive successor is the
absolute tile 8 = 7 - 2 + 3 whose intersection group is tiles 3 and 8.
Tile 3 is a main-track group tile and is not the naive successor, so the
claim assigns it direction 0 on both lanes; but the code compares the
absolute index 3 with the *relative* successor index `next_id = 3` and
instead hands tile 3 the caller's lane and direction. -/
theorem claim4_counterexample :
    (infoAtM mC4 7).track = 1 ∧
    (infoAtM mC4 8).interId = 7 ∧
    (infoAtM mC4 3).track = 0 ∧
    (infoAtM mC4 3).interId = 7 ∧
    getNextNode mC4 7 0 1 = [(3, [(0, 1)]), (8, [(1, 1), (0, 1)])] ∧
    dGet (getNextNode mC4 7 0 1) 3 ≠ some [(1, 0), (0, 0)] := by
  refine ⟨by decide, by decide, by decide, by decide, by decide, by decide⟩

/-- C4, amended: when the *caller's tile is on the main track* and the
naive successor belongs to an intersection group, every tile of the group
becomes a candidate successor; group tiles that are start or end tiles get
direction −1 on both lanes; the naive successor keeps the caller's lane
and direction; every other main-track group tile gets direction 0 on both
lanes.  (For a caller on a secondary track, a main-track group tile whose
absolute index equals the caller's relative successor index keeps the
caller's lane and direction instead — the counterexample's behaviour.)
The layout hypotheses state how `_create_info` lays out a two-track
model: main-track tiles first, and start/end flags only on the secondary
track. -/
theorem claim4_intersection_fanout (m : Model) (L0 L1 id lane : Nat) (d : Int)
    (nextId g : Int)
    (hlens : m.trackLens = [L0, L1])
    (hlen : m.info.length = L0 + L1)
    (hlayout : ∀ i, i < m.info.length →
      (infoAtM m i).track = if i < L0 then 0 else 1)
    (hse : ∀ i, i < m.info.length →
      ((infoAtM m i).isStart = true ∨ (infoAtM m i).isEnd = true) →
      0 < (infoAtM m i).track)
    (hid : id < L0)
    (hnext : nextId = ((id : Int) + d) % (L0 : Int))
    (hg : g = (infoAtM m nextId.toNat).interId)
    (hinter : g ≠ -1) :
    ∀ tmp ∈ groupIds m g,
      (dGet (getNextNode m id lane d) tmp).isSome = true ∧
      (((infoAtM m tmp).isStart = true ∨ (infoAtM m tmp).isEnd = true) →
        dGet (getNextNode m id lane d) tmp = some [(1, -1), (0, -1)]) ∧
      ((infoAtM m tmp).track = 0 → (tmp : Int) = nextId →
        dGet (getNextNode m id lane d) tmp = some [(lane, d)]) ∧
      ((infoAtM m tmp).track = 0 → (tmp : Int) ≠ nextId →
        dGet (getNextNode m id lane d) tmp = some [(1, 0), (0, 0)]) := by
  subst hnext
  subst hg
  have hidlen : id < m.info.length := by omega
  have htr0 : (infoAtM m id).track = 0 := by
    rw [hlayout id hidlen, if_pos hid]
  have hnoE : (infoAtM m id).isEnd = false := by
    by_contra hc
    have := hse id hidlen (Or.inr (by simpa using hc))
    omega
  have hnoS : (infoAtM m id).isStart = false := by
    by_contra hc
    have := hse id hidlen (Or.inl (by simpa using hc))
    omega
  set nextId : Int := ((id : Int) + d) % (L0 : Int) with hnextdef
  set g : Int := (infoAtM m nextId.toNat).interId with hgdef
  have hns : getNextNode m id lane d =
      ((groupIds m g).foldl (interStep m lane nextId) ([], d)).1 := by
    unfold getNextNode
    rw [if_neg (by simp [hnoE, hnoS])]
    simp only [htr0, hlens]
    norm_num
    intro hc
    exact absurd hc hinter
  intro tmp htmp
  have hG : tmp ∈ groupIds m g := htmp
  obtain ⟨s, t, hsplit⟩ := List.append_of_mem hG
  have hpw : (groupIds m g).Pairwise (· < ·) := by
    have h2 : ((List.range m.info.length).filter
        (fun i => decide ((infoAtM m i).interId = g))).Pairwise (· < ·) :=
      List.Pairwise.sublist (List.filter_sublist _) (List.pairwise_lt_range _)
    exact h2
  have hpw2 : (s ++ tmp :: t).Pairwise (· < ·) := hsplit ▸ hpw
  have hs_lt : ∀ x ∈ s, x < tmp := by
    intro x hx
    exact (List.pairwise_append.mp hpw2).2.2 x hx tmp (List.mem_cons_self tmp t)
  have ht_notmem : tmp ∉ t := by
    intro hc
    have := (List.pairwise_cons.mp (List.pairwise_append.mp hpw2).2.1).1 tmp hc
    omega
  have hfold : dGet (getNextNode m id lane d) tmp =
      some (interWritten m lane nextId
        ((s.foldl (interStep m lane nextId) ([], d)).2) tmp) := by
    rw [hns, hsplit, List.foldl_append, List.foldl_cons,
      dGet_foldl_interStep_not_mem m lane nextId t _ tmp ht_notmem,
      dGet_interStep_self]
  have htmp_len : tmp < m.info.length := by
    have h2 : tmp ∈ (List.range m.info.length).filter
        (fun i => decide ((infoAtM m i).interId = g)) := hG
    exact List.mem_range.mp (List.mem_of_mem_filter h2)
  refine ⟨?_, ?_, ?_, ?_⟩
  · rw [hfold]; rfl
  · intro hSE
    have htr : 0 < (infoAtM m tmp).track := hse tmp htmp_len hSE
    rw [hfold]
    unfold interWritten
    rw [if_pos htr]
    rcases hSE with hS | hE
    · by_cases hE2 : (infoAtM m tmp).isEnd = true <;> simp [hS, hE2]
    · simp [hE]
  · intro htr heq
    have htmpL0 : tmp < L0 := by
      by_contra hc
      rw [hlayout tmp htmp_len, if_neg hc] at htr
      omega
    have hdir : (s.foldl (interStep m lane nextId) ([], d)).2 = d := by
      apply foldl_interStep_snd
      intro x hx
      have hxG : x ∈ (List.range m.info.length).filter
          (fun i => decide ((infoAtM m i).interId = g)) := by
        show x ∈ groupIds m g
        rw [hsplit]
        exact List.mem_append_left _ hx
      have hxlen : x < m.info.length :=
        List.mem_range.mp (List.mem_of_mem_filter hxG)
      have hxL0 : x < L0 := by
        have := hs_lt x hx
        omega
      rw [hlayout x hxlen, if_pos hxL0]
      omega
    rw [hfold, hdir]
    unfold interWritten
    rw [if_neg (by rw [htr]; omega), if_pos heq]
  · intro htr hne
    rw [hfold]
    unfold interWritten
    rw [if_neg (by rw [htr]; omega), if_neg hne]

/-- C4, witness: the amended theorem applied to `mC4W`, where the caller
is main-track tile 1 (lane 0, direction +1), the naive successor is tile
2, and the group is tiles 2 (main track) and 7 (secondary `end` tile):
tile 2 keeps lane 0 / direction +1, tile 7 gets −1 on both lanes. -/
theorem claim4_witness :
    dGet (getNextNode mC4W 1 0 1) 2 = some [(0, 1)] ∧
    dGet (getNextNode mC4W 1 0 1) 7 = some [(1, -1), (0, -1)] := by
  have h := claim4_intersection_fanout mC4W 5 5 1 0 1 2 3
    (by decide) (by decide)
    (by decide) (by decide) (by decide) (by decide) (by decide) (by decide)
  refine ⟨?_, ?_⟩
  · exact (h 2 (by decide)).2.2.1 (by decide) (by decide)
  · exact (h 7 (by decide)).2.1 (Or.inr (by decide))

/-- The cursor loop runs at most `nf` more iterations, and when it stops
either the lap counter exceeds 4 or the budget is exhausted. -/
theorem trackLoop_spec (alphas : Nat → ℚ) :
    ∀ (nf i laps : Nat) (visited : Bool),
      (trackLoop alphas i laps visited nf).2 ≤ i + nf ∧
      (4 < (trackLoop alphas i laps visited nf).1 ∨
        (trackLoop alphas i laps visited nf).2 = i + nf) := by
  intro nf
  induction nf with
  | zero =>
    intro i laps visited
    simp [trackLoop]
  | succ nf ih =>
    intro i laps visited
    simp only [trackLoop]
    by_cases h4 : 4 < (if visited = true ∧ 0 < alphas i then laps + 1 else laps)
    · rw [if_pos h4]
      exact ⟨by simp, Or.inl h4⟩
    · rw [if_neg h4]
      by_cases h0 : nf = 0
      · subst h0
        rw [if_pos rfl]
        exact ⟨by simp, Or.inr (by simp)⟩
      · rw [if_neg h0]
        have h := ih (i + 1)
          (if visited = true ∧ 0 < alphas i then laps + 1 else laps)
          (if alphas i < 0 then true
           else if visited = true ∧ 0 < alphas i then false else visited)
        exact ⟨by omega, by omega⟩

/-- C8, counterexample.  With the angle stream that wraps past 0 on every
second step, the loop stops only once the lap counter reaches 5 (after 10
iterations), not when 4 full laps have been detected (which happens at
iteration 8); and with a stream that wraps exactly 4 times and then stays
positive, the loop never stops on the lap condition at all and runs the
whole 2500-iteration budget even though 4 full laps were detected. -/
theorem claim8_counterexample :
    trackLoop altAlphas 0 0 false 2500 = (5, 10) ∧
    trackLoop fourWrapAlphas 0 0 false 2500 = (4, 2500) := by
  constructor
  · decide
  · decide

/-- C8, amended: the cursor loop always terminates within its 2500-step
budget, and it stops either because the lap counter *exceeds* 4 — i.e. on
the fifth wrap of the polar angle past 0, not the fourth — or because the
2500-iteration budget is exhausted. -/
theorem claim8_cursor_loop_terminates (alphas : Nat → ℚ) :
    (getTrackLaps alphas).2 ≤ 2500 ∧
    (4 < (getTrackLaps alphas).1 ∨ (getTrackLaps alphas).2 = 2500) := by
  have h := trackLoop_spec alphas 2500 0 0 false
  simpa [getTrackLaps] using h

/-- When every candidate point is closer than `TRACK_WIDTH/3` to `p1`, no
ring ever selects a point. -/
theorem p3Select_nil_of_small (ds : List ℚ) (dist : ℚ)
    (h : ∀ x ∈ ds, x < TRACK_WIDTH / 3) : p3Select ds dist = [] := by
  unfold p3Select
  rw [List.filter_eq_nil_iff]
  intro i hi
  simp only [decide_eq_true_eq, not_and]
  intro h1
  exfalso
  have hilen : i < ds.length := List.mem_range.mp hi
  have hmem : ds.getD i 0 ∈ ds := by
    rw [List.getD_eq_getElem ds 0 hilen]
    exact List.getElem_mem hilen
  exact absurd h1 (not_le.mpr (h _ hmem))

/-- If no ring ever selects a point, the escalating search returns the
empty selection for every fuel and starting distance. -/
theorem p3While_nil (ds : List ℚ) (h : ∀ dist, p3Select ds dist = []) :
    ∀ (fuel : Nat) (dist : ℚ), p3While ds fuel dist = [] := by
  intro fuel
  induction fuel with
  | zero => intro dist; rfl
  | succ fuel ih =>
    intro dist
    unfold p3While
    split
    · rw [h]
      simpa using ih (dist + TRACK_WIDTH)
    · rfl

/-- C9: when no interpolation candidate point for a start/end tile lies in
any search ring (here: all candidates violate the minimum distance), tile
construction fails hard with the distinguished error, and the reset retry
loop propagates that error instead of retrying it — it only retries the
falsy return of a generation attempt (track failed to close / merge
emptied a track). -/
theorem claim9_hard_failure_propagates :
    (∀ ds : List ℚ, (∀ x ∈ ds, x < TRACK_WIDTH / 3) →
      findP3 ds = Except.error GenError.p3LengthZero) ∧
    (∀ (e : GenError) (rest : List (Except GenError Bool)),
      resetLoop (Except.error e :: rest) = Except.error e) ∧
    (∀ rest : List (Except GenError Bool),
      resetLoop (Except.ok false :: rest) = resetLoop rest) := by
  refine ⟨?_, ?_, ?_⟩
  · intro ds h
    unfold findP3
    rw [p3While_nil ds (fun dist => p3Select_nil_of_small ds dist h) 64 _]
    rfl
  · intro e rest; rfl
  · intro rest; rfl

/-- C9, witness: a single candidate point at distance 1 (closer than
`TRACK_WIDTH/3`) makes the search raise, and a reset sequence that first
retries a failed closure and then hits the raise propagates it. -/
theorem claim9_witness :
    findP3 [1] = Except.error GenError.p3LengthZero ∧
    resetLoop [Except.ok false, Except.error GenError.p3LengthZero] =
      Except.error GenError.p3LengthZero := by
  refine ⟨claim9_hard_failure_propagates.1 [1] ?_, ?_⟩
  · intro x hx
    have hx1 : x = 1 := by simpa using hx
    rw [hx1]
    norm_num [TRACK_WIDTH]
  · rw [claim9_hard_failure_propagates.2.2 [Except.error GenError.p3LengthZero]]
    exact claim9_hard_failure_propagates.2.1 GenError.p3LengthZero []

/-! ## Lemmas about the lane assigner -/

theorem infoAt'_set (info : List TileInfo) (i : Nat) (x : TileInfo) (j : Nat) :
    infoAt' (info.set i x) j =
      if i = j ∧ j < info.length then x else infoAt' info j := by
  induction info generalizing i j with
  | nil => simp [infoAt']
  | cons a rest ih =>
    match i, j with
    | 0, 0 => simp [infoAt', List.set]
    | 0, j + 1 => simp [infoAt', List.set, List.getD]
    | i + 1, 0 => simp [infoAt', List.set, List.getD]
    | i + 1, j + 1 =>
      have h2 : infoAt' ((a :: rest).set (i + 1) x) (j + 1) =
          infoAt' (rest.set i x) j := by simp [infoAt', List.set, List.getD]
      have h3 : infoAt' (a :: rest) (j + 1) = infoAt' rest j := by
        simp [infoAt', List.getD]
      rw [h2, h3, ih i j]
      by_cases hij : i = j
      · subst hij
        by_cases hlt : i < rest.length
        · rw [if_pos ⟨rfl, hlt⟩, if_pos ⟨rfl, by simpa using Nat.succ_lt_succ hlt⟩]
        · rw [if_neg (fun hc => hlt hc.2),
            if_neg (fun hc => hlt (by simp only [List.length_cons] at hc; omega))]
      · rw [if_neg (fun hc => hij hc.1), if_neg (fun hc => hij (by omega))]

theorem updateLanes_length (info : List TileInfo) (i l : Nat) (v : Bool) :
    (updateLanes info i l v).length = info.length := by
  simp [updateLanes]

theorem infoAt'_updateLanes (info : List TileInfo) (i l : Nat) (v : Bool) (j : Nat) :
    infoAt' (updateLanes info i l v) j =
      if i = j ∧ j < info.length then
        { infoAt' info j with lanes := setLaneNat (infoAt' info j).lanes l v }
      else infoAt' info j := by
  unfold updateLanes
  rw [infoAt'_set]
  by_cases h : i = j ∧ j < info.length
  · rw [if_pos h, if_pos h, h.1]
  · rw [if_neg h, if_neg h]

/-- The walk and the override only write the `lanes` field. -/
theorem updateLanes_fields (info : List TileInfo) (i l : Nat) (v : Bool) (j : Nat) :
    (infoAt' (updateLanes info i l v) j).track = (infoAt' info j).track ∧
    (infoAt' (updateLanes info i l v) j).isEnd = (infoAt' info j).isEnd ∧
    (infoAt' (updateLanes info i l v) j).isStart = (infoAt' info j).isStart ∧
    (infoAt' (updateLanes info i l v) j).interId = (infoAt' info j).interId := by
  rw [infoAt'_updateLanes]
  split <;> simp

theorem setLaneNat_compAt (pr : Bool × Bool) (l' : Nat) (v : Bool) (l : Nat)
    (hl : l = 0 ∨ l = 1) :
    compAt (setLaneNat pr l' v) l = if l' = l then v else compAt pr l := by
  rcases hl with h | h <;> subst h <;>
    by_cases h0 : l' = 0 <;>
      first
        | (subst h0; simp [setLaneNat, compAt])
        | (by_cases h1 : l' = 1 <;>
            first
              | (subst h1; simp [setLaneNat, compAt])
              | simp [setLaneNat, compAt, h0, h1])

/-- A `setLaneNat _ _ false` write leaves the pair with a false component,
so it can never produce `(true, true)`. -/
theorem setLaneNat_false_ne_both_true (pr : Bool × Bool) (l : Nat)
    (hl : l = 0 ∨ l = 1) : setLaneNat pr l false ≠ (true, true) := by
  rcases hl with h | h <;> subst h <;> simp [setLaneNat]

theorem bothLanesTrue_iff (info : List TileInfo) (p : Nat) :
    bothLanesTrue info p = true ↔
      (laneAt info p 0 = true ∧ laneAt info p 1 = true) := by
  unfold bothLanesTrue laneAt compAt
  rcases h : (infoAt' info p).lanes with ⟨a, b⟩
  simp [Prod.ext_iff]

theorem trackPositions_congr (a b : List TileInfo) (t : Nat)
    (hlen : a.length = b.length)
    (htr : ∀ j, (infoAt' a j).track = (infoAt' b j).track) :
    trackPositions a t = trackPositions b t := by
  unfold trackPositions
  rw [hlen]
  apply List.filter_congr
  intro i _
  rw [htr i]

theorem negIdx_zero (len : Nat) : negIdx len 0 = 0 := by
  simp [negIdx]

theorem negIdx_eq_sub (len i : Nat) (h1 : 0 < i) (h2 : i < len) :
    negIdx len i = len - i := by
  unfold negIdx
  have he : (-(i : Int)) % (len : Int) = ((len : Int) - i) := by
    have hsub : ((len : Int) - i + (len : Int) * (-1)) % (len : Int) =
        ((len : Int) - i) % (len : Int) :=
      Int.add_mul_emod_self_left ((len : Int) - i) (len : Int) (-1)
    have hlhs : ((len : Int) - i + (len : Int) * (-1)) = -(i : Int) := by ring
    rw [hlhs] at hsub
    rw [hsub, Int.emod_eq_of_lt (by omega) (by omega)]
  rw [he]
  omega

theorem walkStep_gIdx (cfg : Nat) (changes : List Nat) (g : Nat → Fin 2)
    (st : WalkState × List TileInfo) (i : Nat) :
    (walkStep cfg changes g st i).1.gIdx =
      if decide (i ∈ changes) = true ∧
          Bool.xor st.1.rmLane (decide (i ∈ changes)) = true
      then st.1.gIdx + 1 else st.1.gIdx := rfl

theorem walkStep_counter (cfg : Nat) (changes : List Nat) (g : Nat → Fin 2)
    (st : WalkState × List TileInfo) (i : Nat) :
    (walkStep cfg changes g st i).1.counter =
      if Bool.xor st.1.rmLane (decide (i ∈ changes)) = true
      then st.1.counter + 1 else 0 := rfl

theorem walkStep_info (cfg : Nat) (changes : List Nat) (g : Nat → Fin 2)
    (st : WalkState × List TileInfo) (i : Nat) :
    (walkStep cfg changes g st i).2 =
      if Bool.xor st.1.rmLane (decide (i ∈ changes)) = true
      then updateLanes st.2 i
        (if decide (i ∈ changes) = true ∧
            Bool.xor st.1.rmLane (decide (i ∈ changes)) = true
         then g st.1.gIdx else st.1.lane).val false
      else st.2 := rfl

theorem walkStep_rmLane (cfg : Nat) (changes : List Nat) (g : Nat → Fin 2)
    (st : WalkState × List TileInfo) (i : Nat) :
    (walkStep cfg changes g st i).1.rmLane =
      if (infoAt' (walkStep cfg changes g st i).2 i).isEnd = true ∨
         (infoAt' (walkStep cfg changes g st i).2 i).isStart = true ∨
         cfg < (walkStep cfg changes g st i).1.counter
      then false else Bool.xor st.1.rmLane (decide (i ∈ changes)) := rfl

theorem walkStep_length (cfg : Nat) (changes : List Nat) (g : Nat → Fin 2)
    (st : WalkState × List TileInfo) (i : Nat) :
    (walkStep cfg changes g st i).2.length = st.2.length := by
  rw [walkStep_info]
  split
  · rw [updateLanes_length]
  · rfl

theorem walkStep_infoAt_ne (cfg : Nat) (changes : List Nat) (g : Nat → Fin 2)
    (st : WalkState × List TileInfo) (i j : Nat) (h : j ≠ i) :
    infoAt' (walkStep cfg changes g st i).2 j = infoAt' st.2 j := by
  rw [walkStep_info]
  split
  · rw [infoAt'_updateLanes, if_neg (fun hc => h hc.1.symm)]
  · rfl

theorem walkStep_fields (cfg : Nat) (changes : List Nat) (g : Nat → Fin 2)
    (st : WalkState × List TileInfo) (i j : Nat) :
    (infoAt' (walkStep cfg changes g st i).2 j).track = (infoAt' st.2 j).track ∧
    (infoAt' (walkStep cfg changes g st i).2 j).isEnd = (infoAt' st.2 j).isEnd ∧
    (infoAt' (walkStep cfg changes g st i).2 j).isStart = (infoAt' st.2 j).isStart := by
  rw [walkStep_info]
  split
  · exact ⟨(updateLanes_fields _ _ _ _ _).1, (updateLanes_fields _ _ _ _ _).2.1,
      (updateLanes_fields _ _ _ _ _).2.2.1⟩
  · exact ⟨rfl, rfl, rfl⟩

theorem walkFold_length (cfg : Nat) (changes : List Nat) (g : Nat → Fin 2) :
    ∀ (L : List Nat) (st : WalkState × List TileInfo),
      ((L.foldl (walkStep cfg changes g) st).2).length = st.2.length := by
  intro L
  induction L with
  | nil => intro st; rfl
  | cons x L ih =>
    intro st
    rw [List.foldl_cons, ih, walkStep_length]

theorem walkFold_infoAt_not_mem (cfg : Nat) (changes : List Nat) (g : Nat → Fin 2) :
    ∀ (L : List Nat) (st : WalkState × List TileInfo) (j : Nat),
      (∀ i ∈ L, j ≠ i) →
      infoAt' ((L.foldl (walkStep cfg changes g) st).2) j = infoAt' st.2 j := by
  intro L
  induction L with
  | nil => intro st j _; rfl
  | cons x L ih =>
    intro st j hj
    rw [List.foldl_cons, ih _ j (fun i hi => hj i (List.mem_cons_of_mem x hi)),
      walkStep_infoAt_ne _ _ _ _ _ _ (hj x (List.mem_cons_self x L))]

theorem walkFold_fields (cfg : Nat) (changes : List Nat) (g : Nat → Fin 2) :
    ∀ (L : List Nat) (st : WalkState × List TileInfo) (j : Nat),
      (infoAt' (L.foldl (walkStep cfg changes g) st).2 j).track =
        (infoAt' st.2 j).track ∧
      (infoAt' (L.foldl (walkStep cfg changes g) st).2 j).isEnd =
        (infoAt' st.2 j).isEnd ∧
      (infoAt' (L.foldl (walkStep cfg changes g) st).2 j).isStart =
        (infoAt' st.2 j).isStart := by
  intro L
  induction L with
  | nil => intro st j; exact ⟨rfl, rfl, rfl⟩
  | cons x L ih =>
    intro st j
    rw [List.foldl_cons]
    have h1 := ih (walkStep cfg changes g st x) j
    have h2 := walkStep_fields cfg changes g st x j
    exact ⟨h1.1.trans h2.1, h1.2.1.trans h2.2.1, h1.2.2.trans h2.2.2⟩

/-- Each tile index is visited exactly once by the walk, so its final
lanes value is the initial one with at most one lane cleared. -/
theorem walkFold_range_lanes (cfg : Nat) (changes : List Nat) (g : Nat → Fin 2) :
    ∀ (n : Nat) (st : WalkState × List TileInfo) (j : Nat),
      (infoAt' ((List.range n).foldl (walkStep cfg changes g) st).2 j).lanes =
          (infoAt' st.2 j).lanes ∨
      ∃ l : Fin 2,
        (infoAt' ((List.range n).foldl (walkStep cfg changes g) st).2 j).lanes =
          setLaneNat (infoAt' st.2 j).lanes l.val false := by
  intro n
  induction n with
  | zero => intro st j; exact Or.inl rfl
  | succ n ih =>
    intro st j
    rw [List.range_succ, List.foldl_append, List.foldl_cons, List.foldl_nil]
    by_cases hj : j = n
    · subst hj
      have hpre : infoAt' ((List.range j).foldl (walkStep cfg changes g) st).2 j =
          infoAt' st.2 j :=
        walkFold_infoAt_not_mem cfg changes g (List.range j) st j
          (fun i hi => (Nat.ne_of_gt (List.mem_range.mp hi)))
      rw [walkStep_info]
      split
      · rw [infoAt'_updateLanes]
        split
        · right
          exact ⟨_, by rw [hpre]⟩
        · rw [hpre]
          exact Or.inl rfl
      · rw [hpre]
        exact Or.inl rfl
    · rw [walkStep_infoAt_ne _ _ _ _ _ _ hj]
      exact ih st j

theorem fin2_val_or (x : Fin 2) : x.val = 0 ∨ x.val = 1 := by
  have := x.isLt
  omega

/-- One walk step preserves the two-run relation: the control state reads
only the shared seeded draws, the tile flags (equal in both runs) and the
counter; the lanes write clears one lane in both runs at the same tile. -/
theorem walkStep_sim (cfg : Nat) (changes : List Nat) (g1 g2 : Nat → Fin 2)
    (st1 st2 : WalkState × List TileInfo) (i : Nat) (h : WalkSim st1 st2) :
    WalkSim (walkStep cfg changes g1 st1 i) (walkStep cfg changes g2 st2 i) := by
  obtain ⟨hrm, hc, hg, hlen, hfields, hlanes⟩ := h
  have hinfoF : ∀ j,
      (infoAt' (walkStep cfg changes g1 st1 i).2 j).isEnd =
        (infoAt' (walkStep cfg changes g2 st2 i).2 j).isEnd ∧
      (infoAt' (walkStep cfg changes g1 st1 i).2 j).isStart =
        (infoAt' (walkStep cfg changes g2 st2 i).2 j).isStart := by
    intro j
    have f1 := walkStep_fields cfg changes g1 st1 i j
    have f2 := walkStep_fields cfg changes g2 st2 i j
    exact ⟨f1.2.1.trans ((hfields j).1.trans f2.2.1.symm),
      f1.2.2.trans ((hfields j).2.trans f2.2.2.symm)⟩
  have hlen' : (walkStep cfg changes g1 st1 i).2.length =
      (walkStep cfg changes g2 st2 i).2.length := by
    rw [walkStep_length, walkStep_length, hlen]
  have hcounter' : (walkStep cfg changes g1 st1 i).1.counter =
      (walkStep cfg changes g2 st2 i).1.counter := by
    rw [walkStep_counter, walkStep_counter, hrm, hc]
  have hlanes' : ∀ j,
      (infoAt' (walkStep cfg changes g1 st1 i).2 j).lanes = (true, true) ↔
      (infoAt' (walkStep cfg changes g2 st2 i).2 j).lanes = (true, true) := by
    intro j
    by_cases hj : j = i
    · subst hj
      rw [walkStep_info, walkStep_info, ← hrm]
      by_cases hcase : Bool.xor st1.1.rmLane (decide (j ∈ changes)) = true
      · rw [if_pos hcase, if_pos hcase, infoAt'_updateLanes, infoAt'_updateLanes]
        by_cases hin : j < st1.2.length
        · rw [if_pos (show j = j ∧ j < st1.2.length from ⟨rfl, hin⟩),
            if_pos (show j = j ∧ j < st2.2.length from ⟨rfl, by omega⟩)]
          constructor
          · intro hcontr
            exact absurd hcontr (setLaneNat_false_ne_both_true _ _ (fin2_val_or _))
          · intro hcontr
            exact absurd hcontr (setLaneNat_false_ne_both_true _ _ (fin2_val_or _))
        · rw [if_neg (show ¬(j = j ∧ j < st1.2.length) from fun hx => hin hx.2),
            if_neg (show ¬(j = j ∧ j < st2.2.length) from fun hx => hin (by omega))]
          exact hlanes j
      · rw [if_neg hcase, if_neg hcase]
        exact hlanes j
    · rw [walkStep_infoAt_ne _ _ _ _ _ _ hj, walkStep_infoAt_ne _ _ _ _ _ _ hj]
      exact hlanes j
  refine ⟨?_, hcounter', ?_, hlen', hinfoF, hlanes'⟩
  · rw [walkStep_rmLane, walkStep_rmLane, hrm, hcounter',
      (hinfoF i).1, (hinfoF i).2]
  · rw [walkStep_gIdx, walkStep_gIdx, hrm, hg]

theorem walkFold_sim (cfg : Nat) (changes : List Nat) (g1 g2 : Nat → Fin 2) :
    ∀ (L : List Nat) (st1 st2 : WalkState × List TileInfo), WalkSim st1 st2 →
      WalkSim (L.foldl (walkStep cfg changes g1) st1)
        (L.foldl (walkStep cfg changes g2) st2) := by
  intro L
  induction L with
  | nil => intro st1 st2 h; exact h
  | cons x L ih =>
    intro st1 st2 h
    rw [List.foldl_cons, List.foldl_cons]
    exact ih _ _ (walkStep_sim cfg changes g1 g2 st1 st2 x h)

/-- Two walks from the same info and seeded changes agree, per tile, on
whether both lanes survive. -/
theorem walkAll_sim (maxSingleLane : Nat) (changes : List Nat)
    (g1 g2 : Nat → Fin 2) (info : List TileInfo) :
    ∀ j, ((infoAt' (walkAll maxSingleLane changes g1 info) j).lanes = (true, true) ↔
      (infoAt' (walkAll maxSingleLane changes g2 info) j).lanes = (true, true)) ∧
    (walkAll maxSingleLane changes g1 info).length =
      (walkAll maxSingleLane changes g2 info).length ∧
    (infoAt' (walkAll maxSingleLane changes g1 info) j).track =
      (infoAt' (walkAll maxSingleLane changes g2 info) j).track := by
  intro j
  have h := walkFold_sim maxSingleLane changes g1 g2 (List.range info.length)
    (⟨false, 0, 0, 0⟩, info) (⟨false, 0, 0, 0⟩, info)
    ⟨rfl, rfl, rfl, rfl, fun _ => ⟨rfl, rfl⟩, fun _ => Iff.rfl⟩
  refine ⟨h.2.2.2.2.2 j, h.2.2.2.1, ?_⟩
  have t1 := (walkFold_fields maxSingleLane changes g1 (List.range info.length)
    (⟨false, 0, 0, 0⟩, info) j).1
  have t2 := (walkFold_fields maxSingleLane changes g2 (List.range info.length)
    (⟨false, 0, 0, 0⟩, info) j).1
  exact t1.trans t2.symm

theorem forceLaneTrue_length (info : List TileInfo) (q l' : Nat) :
    (forceLaneTrue info q l').length = info.length :=
  updateLanes_length info q l' true

theorem forceLaneTrue_fields (info : List TileInfo) (q l' j : Nat) :
    (infoAt' (forceLaneTrue info q l') j).track = (infoAt' info j).track ∧
    (infoAt' (forceLaneTrue info q l') j).isEnd = (infoAt' info j).isEnd ∧
    (infoAt' (forceLaneTrue info q l') j).isStart = (infoAt' info j).isStart := by
  have h := updateLanes_fields info q l' true j
  exact ⟨h.1, h.2.1, h.2.2.1⟩

theorem laneAt_forceLaneTrue_mono (info : List TileInfo) (q l' p l : Nat)
    (hl : l = 0 ∨ l = 1) (h : laneAt info p l = true) :
    laneAt (forceLaneTrue info q l') p l = true := by
  unfold laneAt forceLaneTrue
  rw [infoAt'_updateLanes]
  by_cases hc : q = p ∧ p < info.length
  · rw [if_pos hc]
    show compAt (setLaneNat (infoAt' info p).lanes l' true) l = true
    rw [setLaneNat_compAt _ _ _ _ hl]
    by_cases hll : l' = l
    · rw [if_pos hll]
    · rw [if_neg hll]; exact h
  · rw [if_neg hc]; exact h

theorem laneAt_forceLaneTrue_self (info : List TileInfo) (p l : Nat)
    (hp : p < info.length) (hl : l = 0 ∨ l = 1) :
    laneAt (forceLaneTrue info p l) p l = true := by
  unfold laneAt forceLaneTrue
  rw [infoAt'_updateLanes, if_pos ⟨rfl, hp⟩]
  show compAt (setLaneNat (infoAt' info p).lanes l true) l = true
  rw [setLaneNat_compAt _ _ _ _ hl, if_pos rfl]

theorem laneAt_forceLaneTrue_other (info : List TileInfo) (q l' p l : Nat)
    (hl : l = 0 ∨ l = 1) (h : p ≠ q ∨ l' ≠ l) :
    laneAt (forceLaneTrue info q l') p l = laneAt info p l := by
  unfold laneAt forceLaneTrue
  rw [infoAt'_updateLanes]
  by_cases hc : q = p ∧ p < info.length
  · rw [if_pos hc]
    show compAt (setLaneNat (infoAt' info p).lanes l' true) l = _
    rw [setLaneNat_compAt _ _ _ _ hl]
    rcases h with hpq | hll
    · exact absurd hc.1.symm hpq
    · rw [if_neg hll]
  · rw [if_neg hc]

theorem trackPositions_forceLaneTrue (info : List TileInfo) (q l' t : Nat) :
    trackPositions (forceLaneTrue info q l') t = trackPositions info t :=
  trackPositions_congr _ _ _ (forceLaneTrue_length info q l')
    (fun j => (forceLaneTrue_fields info q l' j).1)

theorem overridePair_length (t l i : Nat) (info : List TileInfo) :
    (overridePair t l i info).length = info.length := by
  simp only [overridePair]
  rcases h1 : (trackPositions info t).get? i with _ | p
  · simp only [h1]
    rcases h2 : (trackPositions info t).get?
        (negIdx (trackPositions info t).length i) with _ | q
    · simp only [h2]
    · simp only [h2, forceLaneTrue_length]
  · simp only [h1, trackPositions_forceLaneTrue]
    rcases h2 : (trackPositions info t).get?
        (negIdx (trackPositions info t).length i) with _ | q
    · simp only [h2, forceLaneTrue_length]
    · simp only [h2, forceLaneTrue_length]

theorem overridePair_fields (t l i : Nat) (info : List TileInfo) (j : Nat) :
    (infoAt' (overridePair t l i info) j).track = (infoAt' info j).track ∧
    (infoAt' (overridePair t l i info) j).isEnd = (infoAt' info j).isEnd ∧
    (infoAt' (overridePair t l i info) j).isStart = (infoAt' info j).isStart := by
  simp only [overridePair]
  rcases h1 : (trackPositions info t).get? i with _ | p
  · simp only [h1]
    rcases h2 : (trackPositions info t).get?
        (negIdx (trackPositions info t).length i) with _ | q
    · simp only [h2]
      exact ⟨trivial, trivial, trivial⟩
    · simp only [h2]
      exact forceLaneTrue_fields _ _ _ _
  · simp only [h1, trackPositions_forceLaneTrue]
    rcases h2 : (trackPositions info t).get?
        (negIdx (trackPositions info t).length i) with _ | q
    · simp only [h2]
      exact forceLaneTrue_fields _ _ _ _
    · simp only [h2]
      have ha := forceLaneTrue_fields info p l j
      have hb := forceLaneTrue_fields (forceLaneTrue info p l) q l j
      exact ⟨hb.1.trans ha.1, hb.2.1.trans ha.2.1, hb.2.2.trans ha.2.2⟩

theorem trackPositions_overridePair (t l i t' : Nat) (info : List TileInfo) :
    trackPositions (overridePair t l i info) t' = trackPositions info t' :=
  trackPositions_congr _ _ _ (overridePair_length t l i info)
    (fun j => (overridePair_fields t l i info j).1)

theorem laneAt_overridePair_mono (t l' i : Nat) (info : List TileInfo)
    (p l : Nat) (hl : l = 0 ∨ l = 1) (h : laneAt info p l = true) :
    laneAt (overridePair t l' i info) p l = true := by
  simp only [overridePair]
  rcases h1 : (trackPositions info t).get? i with _ | q
  · simp only [h1]
    rcases h2 : (trackPositions info t).get?
        (negIdx (trackPositions info t).length i) with _ | q2
    · simp only [h2]
      exact h
    · simp only [h2]
      exact laneAt_forceLaneTrue_mono _ _ _ _ _ hl h
  · simp only [h1, trackPositions_forceLaneTrue]
    rcases h2 : (trackPositions info t).get?
        (negIdx (trackPositions info t).length i) with _ | q2
    · simp only [h2]
      exact laneAt_forceLaneTrue_mono _ _ _ _ _ hl h
    · simp only [h2]
      exact laneAt_forceLaneTrue_mono _ _ _ _ _ hl
        (laneAt_forceLaneTrue_mono _ _ _ _ _ hl h)

theorem mem_trackPositions_lt (info : List TileInfo) (t p n : Nat)
    (h : (trackPositions info t).get? n = some p) : p < info.length := by
  have hmem : p ∈ trackPositions info t := by
    have := List.get?_eq_some.mp h
    obtain ⟨hn, hget⟩ := this
    rw [← hget]
    exact List.get_mem _ _ _
  unfold trackPositions at hmem
  exact List.mem_range.mp (List.mem_of_mem_filter hmem)

theorem laneAt_overridePair_hit (t l i : Nat) (info : List TileInfo) (p : Nat)
    (hl : l = 0 ∨ l = 1)
    (h : (trackPositions info t).get? i = some p ∨
         (trackPositions info t).get?
           (negIdx (trackPositions info t).length i) = some p) :
    laneAt (overridePair t l i info) p l = true := by
  simp only [overridePair]
  rcases h with h | h
  · simp only [h, trackPositions_forceLaneTrue]
    have hstep1 : laneAt (forceLaneTrue info p l) p l = true :=
      laneAt_forceLaneTrue_self info p l (mem_trackPositions_lt info t p i h) hl
    rcases h2 : (trackPositions info t).get?
        (negIdx (trackPositions info t).length i) with _ | q2
    · simp only [h2]
      exact hstep1
    · simp only [h2]
      exact laneAt_forceLaneTrue_mono _ _ _ _ _ hl hstep1
  · rcases h1 : (trackPositions info t).get? i with _ | q
    · simp only [h1, h]
      exact laneAt_forceLaneTrue_self info p l
        (mem_trackPositions_lt info t p _ h) hl
    · simp only [h1, trackPositions_forceLaneTrue, h]
      apply laneAt_forceLaneTrue_self
      · rw [forceLaneTrue_length]
        exact mem_trackPositions_lt info t p _ h
      · exact hl

theorem laneAt_overridePair_other (t l' i : Nat) (info : List TileInfo)
    (p l : Nat) (hl : l = 0 ∨ l = 1)
    (h : l' ≠ l ∨ ((trackPositions info t).get? i ≠ some p ∧
        (trackPositions info t).get?
          (negIdx (trackPositions info t).length i) ≠ some p)) :
    laneAt (overridePair t l' i info) p l = laneAt info p l := by
  simp only [overridePair]
  rcases h1 : (trackPositions info t).get? i with _ | q
  · simp only [h1]
    rcases h2 : (trackPositions info t).get?
        (negIdx (trackPositions info t).length i) with _ | q2
    · simp only [h2]
    · simp only [h2]
      refine laneAt_forceLaneTrue_other _ _ _ _ _ hl ?_
      rcases h with hll | ⟨_, hq2⟩
      · exact Or.inr hll
      · exact Or.inl (fun hc => hq2 (hc ▸ h2))
  · simp only [h1, trackPositions_forceLaneTrue]
    have hstep1 : laneAt (forceLaneTrue info q l') p l = laneAt info p l := by
      refine laneAt_forceLaneTrue_other _ _ _ _ _ hl ?_
      rcases h with hll | ⟨hq, _⟩
      · exact Or.inr hll
      · exact Or.inl (fun hc => hq (hc ▸ h1))
    rcases h2 : (trackPositions info t).get?
        (negIdx (trackPositions info t).length i) with _ | q2
    · simp only [h2]
      exact hstep1
    · simp only [h2]
      rw [← hstep1]
      refine laneAt_forceLaneTrue_other _ _ _ _ _ hl ?_
      rcases h with hll | ⟨_, hq2⟩
      · exact Or.inr hll
      · exact Or.inl (fun hc => hq2 (hc ▸ h2))

theorem foldl_override_length :
    ∀ (ops : List (Nat × Nat × Nat)) (cur : List TileInfo),
      (ops.foldl (fun info tli => overridePair tli.1 tli.2.1 tli.2.2 info)
        cur).length = cur.length := by
  intro ops
  induction ops with
  | nil => intro cur; rfl
  | cons x ops ih =>
    intro cur
    rw [List.foldl_cons, ih, overridePair_length]

theorem foldl_override_track :
    ∀ (ops : List (Nat × Nat × Nat)) (cur : List TileInfo) (j : Nat),
      (infoAt' (ops.foldl (fun info tli => overridePair tli.1 tli.2.1 tli.2.2 info)
        cur) j).track = (infoAt' cur j).track := by
  intro ops
  induction ops with
  | nil => intro cur j; rfl
  | cons x ops ih =>
    intro cur j
    rw [List.foldl_cons, ih, (overridePair_fields _ _ _ _ _).1]

theorem foldl_override_mono :
    ∀ (ops : List (Nat × Nat × Nat)) (cur : List TileInfo) (p l : Nat),
      (l = 0 ∨ l = 1) → laneAt cur p l = true →
      laneAt (ops.foldl (fun info tli => overridePair tli.1 tli.2.1 tli.2.2 info)
        cur) p l = true := by
  intro ops
  induction ops with
  | nil => intro cur p l _ h; exact h
  | cons x ops ih =>
    intro cur p l hl h
    rw [List.foldl_cons]
    exact ih _ p l hl (laneAt_overridePair_mono _ _ _ _ p l hl h)

theorem foldl_override_hit (t l i : Nat) (pre post : List (Nat × Nat × Nat))
    (cur : List TileInfo) (p : Nat) (hl : l = 0 ∨ l = 1)
    (h : (trackPositions cur t).get? i = some p ∨
         (trackPositions cur t).get?
           (negIdx (trackPositions cur t).length i) = some p) :
    laneAt ((pre ++ (t, l, i) :: post).foldl
      (fun info tli => overridePair tli.1 tli.2.1 tli.2.2 info) cur) p l = true := by
  rw [List.foldl_append, List.foldl_cons]
  apply foldl_override_mono _ _ _ _ hl
  have hstab : trackPositions
      (pre.foldl (fun info tli => overridePair tli.1 tli.2.1 tli.2.2 info) cur) t =
      trackPositions cur t :=
    trackPositions_congr _ _ _ (foldl_override_length pre cur)
      (fun j => foldl_override_track pre cur j)
  exact laneAt_overridePair_hit t l i _ p hl (by rw [hstab]; exact h)

theorem foldl_override_untargeted (nt nl : Nat) (base : List TileInfo)
    (p l : Nat) (hl : l = 0 ∨ l = 1)
    (hnt : ¬ overrideTargeted nt nl base p l) :
    ∀ (ops : List (Nat × Nat × Nat)) (cur : List TileInfo),
      (∀ x ∈ ops, x.1 < nt ∧ x.2.1 < nl ∧ x.2.2 < 10) →
      cur.length = base.length →
      (∀ j, (infoAt' cur j).track = (infoAt' base j).track) →
      laneAt (ops.foldl (fun info tli => overridePair tli.1 tli.2.1 tli.2.2 info)
        cur) p l = laneAt cur p l := by
  intro ops
  induction ops with
  | nil => intro cur _ _ _; rfl
  | cons x ops ih =>
    intro cur hmem hlen htr
    rw [List.foldl_cons]
    have hx := hmem x (List.mem_cons_self x ops)
    have hstab : trackPositions cur x.1 = trackPositions base x.1 :=
      trackPositions_congr _ _ _ hlen htr
    have hstep : laneAt (overridePair x.1 x.2.1 x.2.2 cur) p l = laneAt cur p l := by
      apply laneAt_overridePair_other _ _ _ _ _ _ hl
      by_cases hll : x.2.1 = l
      · refine Or.inr ⟨?_, ?_⟩
        · intro hc
          exact hnt ⟨hll ▸ hx.2.1, x.1, hx.1, x.2.2, hx.2.2,
            Or.inl (by rw [← hstab]; exact hc)⟩
        · intro hc
          exact hnt ⟨hll ▸ hx.2.1, x.1, hx.1, x.2.2, hx.2.2,
            Or.inr (by rw [← hstab]; exact hc)⟩
      · exact Or.inl hll
    rw [ih _ (fun y hy => hmem y (List.mem_cons_of_mem x hy))
      (by rw [overridePair_length]; exact hlen)
      (fun j => by rw [(overridePair_fields _ _ _ _ _).1]; exact htr j), hstep]

theorem mem_overrideTriples (nt nl t l i : Nat) :
    (t, l, i) ∈ overrideTriples nt nl ↔ t < nt ∧ l < nl ∧ i < 10 := by
  unfold overrideTriples
  simp only [List.mem_flatMap, List.mem_map, List.mem_range, Prod.mk.injEq]
  constructor
  · rintro ⟨a, ha, b, hb, c, hc, rfl, rfl, rfl⟩
    exact ⟨ha, hb, hc⟩
  · rintro ⟨ha, hb, hc⟩
    exact ⟨t, ha, l, hb, i, hc, rfl, rfl, rfl⟩

theorem walkAll_length (ms : Nat) (changes : List Nat) (g : Nat → Fin 2)
    (info : List TileInfo) : (walkAll ms changes g info).length = info.length := by
  unfold walkAll
  exact walkFold_length ms changes g (List.range info.length) (⟨false, 0, 0, 0⟩, info)

theorem walkAll_track (ms : Nat) (changes : List Nat) (g : Nat → Fin 2)
    (info : List TileInfo) (j : Nat) :
    (infoAt' (walkAll ms changes g info) j).track = (infoAt' info j).track := by
  unfold walkAll
  exact (walkFold_fields ms changes g (List.range info.length)
    (⟨false, 0, 0, 0⟩, info) j).1

theorem walkAll_lanes_cases (ms : Nat) (changes : List Nat) (g : Nat → Fin 2)
    (info : List TileInfo) (p : Nat) :
    (infoAt' (walkAll ms changes g info) p).lanes = (infoAt' info p).lanes ∨
    ∃ l : Fin 2, (infoAt' (walkAll ms changes g info) p).lanes =
      setLaneNat (infoAt' info p).lanes l.val false := by
  unfold walkAll
  exact walkFold_range_lanes ms changes g info.length (⟨false, 0, 0, 0⟩, info) p

theorem laneAt_true_ne_ff (info : List TileInfo) (p l : Nat)
    (hl : l = 0 ∨ l = 1) (h : laneAt info p l = true) :
    (infoAt' info p).lanes ≠ (false, false) := by
  intro hc
  unfold laneAt compAt at h
  rw [hc] at h
  rcases hl with h0 | h0 <;> subst h0 <;> simp at h

/-- Per-lane characterisation of the override's final result: a lane ends
up enabled iff the boundary override targets it or the walk left it
enabled. -/
theorem override_char (nt nl : Nat) (W : List TileInfo) (j l : Nat)
    (hl : l = 0 ∨ l = 1) :
    laneAt (applyOverride nt nl W) j l = true ↔
      (overrideTargeted nt nl W j l ∨ laneAt W j l = true) := by
  constructor
  · intro h
    by_cases htg : overrideTargeted nt nl W j l
    · exact Or.inl htg
    · right
      have hu := foldl_override_untargeted nt nl W j l hl htg
        (overrideTriples nt nl) W
        (fun x hx => (mem_overrideTriples nt nl x.1 x.2.1 x.2.2).mp hx)
        rfl (fun _ => rfl)
      unfold applyOverride at h
      rw [hu] at h
      exact h
  · rintro (htg | hw)
    · obtain ⟨hlnl, t, hnt, i, hi, hpos⟩ := htg
      have hmem : (t, l, i) ∈ overrideTriples nt nl :=
        (mem_overrideTriples nt nl t l i).mpr ⟨hnt, hlnl, hi⟩
      obtain ⟨pre, post, hsplit⟩ := List.append_of_mem hmem
      unfold applyOverride
      rw [hsplit]
      exact foldl_override_hit t l i pre post W j hl hpos
    · unfold applyOverride
      exact foldl_override_mono _ _ _ _ hl hw

/-- C10: unless both the lane count exceeds 1 and the number of lane
changes is positive, `_set_lanes` does no work at all, so every tile keeps
the `[True, True]` lane mask that `_create_info` initialised, for the
whole episode. -/
theorem claim10_lane_assigner_inactive (cfg : LanesConfig) (raw : List Nat)
    (g : Nat → Fin 2) (info : List TileInfo)
    (hoff : cfg.numLanesChanges = 0 ∨ cfg.numLanes ≤ 1)
    (hinit : ∀ i, (infoAt' info i).lanes = (true, true)) :
    setLanes cfg raw g info = info ∧
    ∀ i, (infoAt' (setLanes cfg raw g info) i).lanes = (true, true) := by
  have hg : ¬ (0 < cfg.numLanesChanges ∧ 1 < cfg.numLanes) := by omega
  have he : setLanes cfg raw g info = info := by
    unfold setLanes
    rw [if_neg hg]
  exact ⟨he, fun i => by rw [he]; exact hinit i⟩

theorem infoAt'_info22 (i : Nat) : infoAt' info22 i = default := by
  unfold infoAt'
  by_cases h : i < info22.length
  · rw [List.getD_eq_getElem _ _ h]
    exact (show ∀ x ∈ info22, x = default by decide) _ (List.getElem_mem h)
  · rw [List.getD_eq_default _ _ (Nat.le_of_not_lt h)]

/-- C10, witness: with two lanes but zero scheduled lane changes, the
assigner returns the info array unchanged and every tile keeps both
lanes. -/
theorem claim10_witness :
    setLanes ⟨2, 0, 50, 1⟩ [3] gZero info22 = info22 ∧
    ∀ i, (infoAt' (setLanes ⟨2, 0, 50, 1⟩ [3] gZero info22) i).lanes =
      (true, true) :=
  claim10_lane_assigner_inactive ⟨2, 0, 50, 1⟩ [3] gZero info22
    (Or.inl rfl) (fun i => by rw [infoAt'_info22]; rfl)

/-- C7: starting from the all-enabled lane masks of `_create_info`, the
walk clears at most one lane per tile (each tile index is visited once)
and the boundary override only re-enables lanes, so no tile ever ends with
`[False, False]`. -/
theorem claim7_lane_mask_never_both_false (cfg : LanesConfig) (raw : List Nat)
    (g : Nat → Fin 2) (info : List TileInfo)
    (hinit : ∀ i, (infoAt' info i).lanes = (true, true)) :
    ∀ p, (infoAt' (setLanes cfg raw g info) p).lanes ≠ (false, false) := by
  intro p
  unfold setLanes
  split
  · obtain ⟨l, hl01, hWtrue⟩ : ∃ l, (l = 0 ∨ l = 1) ∧
        laneAt (walkAll cfg.maxSingleLane (changesFiltered info raw) g info) p l
          = true := by
      rcases walkAll_lanes_cases cfg.maxSingleLane (changesFiltered info raw)
        g info p with hw | ⟨lf, hw⟩
      · refine ⟨0, Or.inl rfl, ?_⟩
        unfold laneAt compAt
        rw [hw, hinit p]
        rfl
      · rcases fin2_val_or lf with h0 | h0
        · refine ⟨1, Or.inr rfl, ?_⟩
          unfold laneAt compAt
          rw [hw, hinit p, h0]
          rfl
        · refine ⟨0, Or.inl rfl, ?_⟩
          unfold laneAt compAt
          rw [hw, hinit p, h0]
          rfl
    apply laneAt_true_ne_ff _ _ _ hl01
    exact (override_char cfg.numTracks cfg.numLanes _ p l hl01).mpr
      (Or.inr hWtrue)
  · rw [hinit p]
    simp

/-- C7, witness: on a concrete single-track run with one lane change, no
tile of the result has both lanes disabled. -/
theorem claim7_witness :
    (infoAt' (setLanes cfg22 [11] gZero info22) 11).lanes ≠ (false, false) :=
  claim7_lane_mask_never_both_false cfg22 [11] gZero info22
    (fun i => by rw [infoAt'_info22]; rfl) 11

/-- C6, counterexample.  `info60` is a single 60-tile track; the seeded
change point 50 = 60 - 10 survives validation (the 51-iteration check
reads only indices `(50+i) % 60` and `50-i ≥ 0`, all in bounds, and finds
no start/end tile) and starts a lane removal covering tiles 50-59.  The
override re-enables positions `+0..+9` (tiles 0-9) and `-0..-9` (tile 0
again and tiles 59 down to 51) — `-0` is `0` — so tile 50, the 10th tile
from the end of the sub-track, keeps a disabled lane, refuting the claim
for the last 10 tiles. -/
theorem claim6_counterexample :
    info60.length = 60 ∧
    trackPositions info60 0 = List.range 60 ∧
    changesFiltered info60 [50] = [50] ∧
    (infoAt' (setLanes cfg60 [50] gZero info60) 50).lanes = (false, true) := by
  refine ⟨by decide, by decide, by decide, by decide⟩

/-- C6, amended: after `_set_lanes` finishes, the first 10 tiles and the
*last 9* tiles of every sub-track have both lanes enabled; the 10th tile
from the end is not covered by the override (its loop writes positions
`+i` and `-i` for `i in range(10)`, and `-0` is `0`), so it can keep a
disabled lane. -/
theorem claim6_boundary_override (cfg : LanesConfig) (raw : List Nat)
    (g : Nat → Fin 2) (info : List TileInfo) (t : Nat)
    (hinit : ∀ i, (infoAt' info i).lanes = (true, true))
    (ht : t < cfg.numTracks)
    (hlen10 : 10 ≤ (trackPositions info t).length) :
    (∀ i p, i < 10 → (trackPositions info t).get? i = some p →
      (infoAt' (setLanes cfg raw g info) p).lanes = (true, true)) ∧
    (∀ i p, 1 ≤ i → i ≤ 9 →
      (trackPositions info t).get?
        ((trackPositions info t).length - i) = some p →
      (infoAt' (setLanes cfg raw g info) p).lanes = (true, true)) := by
  by_cases hguard : 0 < cfg.numLanesChanges ∧ 1 < cfg.numLanes
  · have hset : setLanes cfg raw g info =
        applyOverride cfg.numTracks cfg.numLanes
          (walkAll cfg.maxSingleLane (changesFiltered info raw) g info) := by
      unfold setLanes
      rw [if_pos hguard]
    set W := walkAll cfg.maxSingleLane (changesFiltered info raw) g info with hWdef
    have hWtr : trackPositions W t = trackPositions info t :=
      trackPositions_congr _ _ _
        (walkAll_length cfg.maxSingleLane (changesFiltered info raw) g info)
        (fun j => walkAll_track cfg.maxSingleLane (changesFiltered info raw) g info j)
    have hforce : ∀ p l, (l = 0 ∨ l = 1) →
        overrideTargeted cfg.numTracks cfg.numLanes W p l →
        laneAt (setLanes cfg raw g info) p l = true := by
      intro p l hl htg
      rw [hset]
      exact (override_char cfg.numTracks cfg.numLanes W p l hl).mpr (Or.inl htg)
    have hconc : ∀ p, laneAt (setLanes cfg raw g info) p 0 = true →
        laneAt (setLanes cfg raw g info) p 1 = true →
        (infoAt' (setLanes cfg raw g info) p).lanes = (true, true) := by
      intro p h0 h1
      have := (bothLanesTrue_iff (setLanes cfg raw g info) p).mpr ⟨h0, h1⟩
      unfold bothLanesTrue at this
      exact of_decide_eq_true this
    constructor
    · intro i p hi hp
      refine hconc p ?_ ?_ <;>
        refine hforce p _ (by omega) ⟨by omega, t, ht, i, hi, Or.inl ?_⟩ <;>
          rw [hWtr] <;> exact hp
    · intro i p h1 h9 hp
      have hneg : negIdx (trackPositions W t).length i =
          (trackPositions info t).length - i := by
        rw [hWtr]
        exact negIdx_eq_sub _ i h1 (by omega)
      refine hconc p ?_ ?_ <;>
        refine hforce p _ (by omega) ⟨by omega, t, ht, i, by omega, Or.inr ?_⟩ <;>
          rw [hneg, hWtr] <;> exact hp
  · have hset : setLanes cfg raw g info = info := by
      unfold setLanes
      rw [if_neg hguard]
    rw [hset]
    exact ⟨fun i p _ _ => hinit p, fun i p _ _ _ => hinit p⟩

theorem infoAt'_info60 (i : Nat) : infoAt' info60 i = default := by
  unfold infoAt'
  by_cases h : i < info60.length
  · rw [List.getD_eq_getElem _ _ h]
    exact (show ∀ x ∈ info60, x = default by decide) _ (List.getElem_mem h)
  · rw [List.getD_eq_default _ _ (Nat.le_of_not_lt h)]

/-- C6, witness: on the concrete 60-tile single-track run with the change
at tile 50, the amended theorem yields both lanes enabled at tile 0 (first
10) and at tile 59 (last 9). -/
theorem claim6_witness :
    (infoAt' (setLanes cfg60 [50] gZero info60) 0).lanes = (true, true) ∧
    (infoAt' (setLanes cfg60 [50] gZero info60) 59).lanes = (true, true) := by
  have h := claim6_boundary_override cfg60 [50] gZero info60 0
    (fun i => by rw [infoAt'_info60]; rfl) (by decide) (by decide)
  exact ⟨h.1 0 0 (by decide) (by decide), h.2 1 59 (by decide) (by decide)
    (by decide)⟩

/-- C5, counterexample.  The lane assigner draws the lane to drop from the
process-global generator, not from the seeded one.  On the 60-tile track
with the seeded draw `[50]` — an input the real `_set_lanes` runs to
completion, since the validation loop only reads non-negative in-bounds
indices — two runs with different global draws disable different lanes at
tile 50, so the Lane Assigner's output is not a function of the seed. -/
theorem claim5_counterexample :
    (infoAt' (setLanes cfg60 [50] gZero info60) 50).lanes = (false, true) ∧
    (infoAt' (setLanes cfg60 [50] gOne info60) 50).lanes = (true, false) ∧
    setLanes cfg60 [50] gZero info60 ≠ setLanes cfg60 [50] gOne info60 := by
  have hA : (infoAt' (setLanes cfg60 [50] gZero info60) 50).lanes =
      (false, true) := by decide
  have hB : (infoAt' (setLanes cfg60 [50] gOne info60) 50).lanes =
      (true, false) := by decide
  refine ⟨hA, hB, ?_⟩
  intro h
  rw [h, hB] at hA
  exact absurd hA (by decide)

/-- C5, amended: the change positions and the activation pattern of the
Lane Assigner are reproducible from the seed alone — two runs with the
same seeded draws agree, tile by tile, on whether both lanes survive — but
*which* lane is dropped is drawn from the process-global generator and can
differ between runs, so the full output need not be identical (the Path
Synthesizer's and Merger's random draws all come from the seeded
generator in the source; the lane drop is the one unseeded draw). -/
theorem claim5_seed_determines_two_lane_set (cfg : LanesConfig)
    (raw : List Nat) (g1 g2 : Nat → Fin 2) (info : List TileInfo) (j : Nat) :
    bothLanesTrue (setLanes cfg raw g1 info) j =
      bothLanesTrue (setLanes cfg raw g2 info) j := by
  by_cases hguard : 0 < cfg.numLanesChanges ∧ 1 < cfg.numLanes
  · have hs : ∀ g : Nat → Fin 2, setLanes cfg raw g info =
        applyOverride cfg.numTracks cfg.numLanes
          (walkAll cfg.maxSingleLane (changesFiltered info raw) g info) := by
      intro g
      unfold setLanes
      rw [if_pos hguard]
    have hWtr : ∀ τ, trackPositions
        (walkAll cfg.maxSingleLane (changesFiltered info raw) g1 info) τ =
        trackPositions
          (walkAll cfg.maxSingleLane (changesFiltered info raw) g2 info) τ := by
      intro τ
      refine trackPositions_congr _ _ _ ?_ ?_
      · rw [walkAll_length, walkAll_length]
      · intro j2
        rw [walkAll_track, walkAll_track]
    have htg_iff : ∀ l, overrideTargeted cfg.numTracks cfg.numLanes
        (walkAll cfg.maxSingleLane (changesFiltered info raw) g1 info) j l ↔
        overrideTargeted cfg.numTracks cfg.numLanes
          (walkAll cfg.maxSingleLane (changesFiltered info raw) g2 info) j l := by
      intro l
      unfold overrideTargeted
      constructor <;> rintro ⟨hlnl, t, hnt, i, hi, hpos⟩ <;>
        refine ⟨hlnl, t, hnt, i, hi, ?_⟩
      · rw [← hWtr t]
        exact hpos
      · rw [hWtr t]
        exact hpos
    have htg01 : ∀ (W : List TileInfo),
        overrideTargeted cfg.numTracks cfg.numLanes W j 0 ↔
        overrideTargeted cfg.numTracks cfg.numLanes W j 1 := by
      intro W
      unfold overrideTargeted
      constructor <;> rintro ⟨_, t, hnt, i, hi, hpos⟩ <;>
        exact ⟨by omega, t, hnt, i, hi, hpos⟩
    have hsim := walkAll_sim cfg.maxSingleLane (changesFiltered info raw)
      g1 g2 info j
    have hwboth : ((laneAt (walkAll cfg.maxSingleLane (changesFiltered info raw)
          g1 info) j 0 = true ∧
        laneAt (walkAll cfg.maxSingleLane (changesFiltered info raw)
          g1 info) j 1 = true)) ↔
        ((laneAt (walkAll cfg.maxSingleLane (changesFiltered info raw)
          g2 info) j 0 = true ∧
        laneAt (walkAll cfg.maxSingleLane (changesFiltered info raw)
          g2 info) j 1 = true)) := by
      rw [← bothLanesTrue_iff, ← bothLanesTrue_iff]
      unfold bothLanesTrue
      rw [decide_eq_true_eq, decide_eq_true_eq]
      exact hsim.1
    have hiff : bothLanesTrue (setLanes cfg raw g1 info) j = true ↔
        bothLanesTrue (setLanes cfg raw g2 info) j = true := by
      rw [bothLanesTrue_iff, bothLanesTrue_iff, hs g1, hs g2,
        override_char _ _ _ _ _ (Or.inl rfl),
        override_char _ _ _ _ _ (Or.inr rfl),
        override_char _ _ _ _ _ (Or.inl rfl),
        override_char _ _ _ _ _ (Or.inr rfl)]
      rw [← htg_iff 0, ← htg_iff 1]
      rw [← htg01 (walkAll cfg.maxSingleLane (changesFiltered info raw) g1 info)]
      rcases Classical.em (overrideTargeted cfg.numTracks cfg.numLanes
        (walkAll cfg.maxSingleLane (changesFiltered info raw) g1 info) j 0)
        with hT | hT
      · simp [hT]
      · simp only [hT, false_or]
        exact hwboth
    cases h1 : bothLanesTrue (setLanes cfg raw g1 info) j <;>
      cases h2 : bothLanesTrue (setLanes cfg raw g2 info) j
    · rfl
    · exact absurd (hiff.mpr h2) (by rw [h1]; simp)
    · exact absurd (hiff.mp h1) (by rw [h2]; simp)
    · rfl
  · have hset : ∀ g : Nat → Fin 2, setLanes cfg raw g info = info := by
      intro g
      unfold setLanes
      rw [if_neg hguard]
    rw [hset g1, hset g2]

end CarRacing
